import Mathlib

/-!
Shallow embedding of the notion-database-duplicate migration tool
(src/notion-database-duplicate/src/notion_db_duplicate.py) and proofs of the
specification's claims about it.

Python dictionaries that are only written and looked up are modelled as
association lists with front insertion: a later assignment to the same key
shadows the earlier one, which matches last-write-wins lookup semantics.
Python strings are modelled as Lean strings (lists of characters); a missing
or None string field is modelled as Option String, and where Python treats
None and the empty string alike (falsiness) the model checks both.
-/

namespace NotionDbDuplicate

/-- A Python dict used as a key-value store: association list, front insert. -/
abbrev Dict (α β : Type) := List (α × β)

/-- Assignment d[k] = v: front insertion so the newest binding shadows. -/
def dictSet {α β : Type} (m : Dict α β) (k : α) (v : β) : Dict α β :=
  (k, v) :: m

/-- Lookup d.get(k): first (that is, newest) binding wins. -/
def dictGet {α β : Type} [DecidableEq α] : Dict α β → α → Option β
  | [], _ => none
  | kv :: rest, k => if kv.1 = k then some kv.2 else dictGet rest k

theorem dictGet_dictSet_self {α β : Type} [DecidableEq α]
    (m : Dict α β) (k : α) (v : β) : dictGet (dictSet m k v) k = some v := by
  simp [dictGet, dictSet]

theorem dictGet_dictSet_ne {α β : Type} [DecidableEq α]
    (m : Dict α β) (k k' : α) (v : β) (h : k ≠ k') :
    dictGet (dictSet m k v) k' = dictGet m k' := by
  simp [dictGet, dictSet, h]

/-! ## sanitize_select_options (source lines 252-260) -/

/-- A source select/multi-select option: the name and color keys as the dump
holds them (none models an absent key; Python treats an empty name as falsy
too, which the loop below checks). -/
structure SelectOption where
  name : Option String
  color : Option String
deriving DecidableEq, Repr

/-- A sanitized option: exactly the two fields the code emits. -/
structure SanitizedOption where
  name : String
  color : String
deriving DecidableEq, Repr

/-- The loop body of sanitize_select_options: options lacking a (truthy) name
are dropped, the rest keep name and color (color defaulting to "default"). -/
def sanitizeOptionsLoop : List SelectOption → List SanitizedOption
  | [] => []
  | o :: os =>
    match o.name with
    | none => sanitizeOptionsLoop os
    | some n =>
      if n = "" then sanitizeOptionsLoop os
      else { name := n, color := o.color.getD "default" } :: sanitizeOptionsLoop os

/-- sanitize_select_options: truncate to maxOptions first, then filter/map. -/
def sanitize_select_options (options : List SelectOption) (maxOptions : Nat) :
    List SanitizedOption :=
  sanitizeOptionsLoop (options.take maxOptions)

/-! ## safe_database_filename (source lines 497-498) -/

/-- Membership in the character class a-zA-Z0-9._- of the sanitizing regex. -/
def allowedFilenameChar (c : Char) : Bool :=
  (c ≥ 'a' && c ≤ 'z') || (c ≥ 'A' && c ≤ 'Z') || (c ≥ '0' && c ≤ '9') ||
    c = '.' || c = '_' || c = '-'

/-- The effect of re.sub applied with the pattern matching one or more
characters outside the class: each maximal run of disallowed characters is
replaced by one underscore. -/
def collapseDisallowed : List Char → List Char
  | [] => []
  | c :: cs =>
    if allowedFilenameChar c then c :: collapseDisallowed cs
    else '_' :: collapseDisallowed (cs.dropWhile (fun d => !allowedFilenameChar d))
termination_by l => l.length
decreasing_by
  · simp
  · have h := (List.dropWhile_suffix (l := cs)
      (fun d => !allowedFilenameChar d)).length_le
    simp only [List.length_cons]
    omega

/-- safe_database_filename from the source. -/
def safe_database_filename (databaseId : String) : String :=
  String.mk (collapseDisallowed databaseId.data) ++ ".json"

/-- Modelled from the spec claim wording for comparison: the id with each
character outside the allowed set replaced by one underscore, then the
suffix. -/
def perCharReplacedFilename (databaseId : String) : String :=
  String.mk (databaseId.data.map (fun c => if allowedFilenameChar c then c else '_'))
    ++ ".json"

/-- No two adjacent characters are both outside the allowed set. -/
def noTwoAdjacentDisallowed : List Char → Bool
  | [] => true
  | [_] => true
  | a :: b :: rest =>
    (allowedFilenameChar a || allowedFilenameChar b) &&
      noTwoAdjacentDisallowed (b :: rest)

/-! ## Repair marking (repair_duplicate_relations, source lines 1144-1156) -/

/-- A destination database property as the repairer sees it: its name and its
type tag (the target database id is not consulted on the id-mapping path). -/
structure DestProperty where
  name : String
  type : String
deriving DecidableEq, Repr

/-- Python str.startswith at the character level. -/
def charsStartWith : List Char → List Char → Bool
  | [], _ => true
  | _ :: _, [] => false
  | m :: ms, c :: cs => m = c && charsStartWith ms cs

/-- Python marker.startswith over strings. -/
def strStartsWith (marker s : String) : Bool := charsStartWith marker.data s.data

/-- The inner to_delete loop of repair_duplicate_relations, reached only for
a destination database that passes the enclosing guard (its source schema
has captured relation descriptors — see repair_db_deletions): a destination
property is marked when it is relation-typed, its name is not among the
captured original relation property names, and its name starts with the
reserved marker text. -/
def repair_mark_for_deletion (originalRelationNames : List String)
    (destProps : List DestProperty) : List String :=
  destProps.filterMap (fun p =>
    if p.type ≠ "relation" then none
    else if p.name ∈ originalRelationNames then none
    else if strStartsWith "Related to " p.name then some p.name
    else none)

/-! ## urllib.parse.unquote, as convert_formula_uuids_to_prop uses it

Percent escapes collect into byte runs; each maximal run is decoded as UTF-8
with the replacement character for invalid sequences; everything else passes
through. -/

/-- The Unicode replacement character U+FFFD. -/
def replacementChar : Char := Char.ofNat 0xFFFD

/-- A UTF-8 continuation byte. -/
def utf8Cont (b : Nat) : Bool := 0x80 ≤ b && b ≤ 0xBF

/-- The allowed second byte after a three-byte leader. -/
def utf8Valid3Second (b1 b2 : Nat) : Bool :=
  if b1 = 0xE0 then 0xA0 ≤ b2 && b2 ≤ 0xBF
  else if b1 = 0xED then 0x80 ≤ b2 && b2 ≤ 0x9F
  else utf8Cont b2

/-- The allowed second byte after a four-byte leader. -/
def utf8Valid4Second (b1 b2 : Nat) : Bool :=
  if b1 = 0xF0 then 0x90 ≤ b2 && b2 ≤ 0xBF
  else if b1 = 0xF4 then 0x80 ≤ b2 && b2 ≤ 0x8F
  else utf8Cont b2

/-- UTF-8 decoding with replacement: an invalid maximal subpart becomes one
replacement character and decoding resumes at the next byte. -/
def utf8DecodeReplace : List Nat → List Char
  | [] => []
  | b :: bs =>
    if b < 0x80 then Char.ofNat b :: utf8DecodeReplace bs
    else if 0xC2 ≤ b && b ≤ 0xDF then
      match bs with
      | [] => [replacementChar]
      | b2 :: rest =>
        if utf8Cont b2 then
          Char.ofNat ((b - 0xC0) * 64 + (b2 - 0x80)) :: utf8DecodeReplace rest
        else replacementChar :: utf8DecodeReplace (b2 :: rest)
    else if 0xE0 ≤ b && b ≤ 0xEF then
      match bs with
      | [] => [replacementChar]
      | b2 :: rest2 =>
        if utf8Valid3Second b b2 then
          match rest2 with
          | [] => [replacementChar]
          | b3 :: rest3 =>
            if utf8Cont b3 then
              Char.ofNat ((b - 0xE0) * 4096 + (b2 - 0x80) * 64 + (b3 - 0x80)) ::
                utf8DecodeReplace rest3
            else replacementChar :: utf8DecodeReplace (b3 :: rest3)
        else replacementChar :: utf8DecodeReplace (b2 :: rest2)
    else if 0xF0 ≤ b && b ≤ 0xF4 then
      match bs with
      | [] => [replacementChar]
      | b2 :: rest2 =>
        if utf8Valid4Second b b2 then
          match rest2 with
          | [] => [replacementChar]
          | b3 :: rest3 =>
            if utf8Cont b3 then
              match rest3 with
              | [] => [replacementChar]
              | b4 :: rest4 =>
                if utf8Cont b4 then
                  Char.ofNat ((b - 0xF0) * 262144 + (b2 - 0x80) * 4096 +
                      (b3 - 0x80) * 64 + (b4 - 0x80)) :: utf8DecodeReplace rest4
                else replacementChar :: utf8DecodeReplace (b4 :: rest4)
            else replacementChar :: utf8DecodeReplace (b3 :: rest3)
        else replacementChar :: utf8DecodeReplace (b2 :: rest2)
    else replacementChar :: utf8DecodeReplace bs

/-- A hexadecimal digit, either case. -/
def isHexDigitChar (c : Char) : Bool :=
  (c ≥ '0' && c ≤ '9') || (c ≥ 'a' && c ≤ 'f') || (c ≥ 'A' && c ≤ 'F')

/-- The value of a hexadecimal digit. -/
def hexDigitVal (c : Char) : Nat :=
  if c ≤ '9' then c.toNat - '0'.toNat
  else if c ≤ 'F' then c.toNat - 'A'.toNat + 10
  else c.toNat - 'a'.toNat + 10

/-- The scanning loop of unquote: a percent escape with two hexadecimal
digits adds a byte to the pending run; anything else flushes the run through
the UTF-8 decoder and passes through (a percent sign without two hexadecimal
digits stays literal). The pending run is kept reversed. -/
def percentDecodeLoop : List Char → List Nat → List Char
  | [], pending => utf8DecodeReplace pending.reverse
  | '%' :: h1 :: h2 :: rest2, pending =>
    if isHexDigitChar h1 && isHexDigitChar h2 then
      percentDecodeLoop rest2 ((hexDigitVal h1 * 16 + hexDigitVal h2) :: pending)
    else utf8DecodeReplace pending.reverse ++ '%' :: percentDecodeLoop (h1 :: h2 :: rest2) []
  | '%' :: rest, pending =>
    utf8DecodeReplace pending.reverse ++ '%' :: percentDecodeLoop rest []
  | c :: rest, pending => utf8DecodeReplace pending.reverse ++ c :: percentDecodeLoop rest []

/-- urllib.parse.unquote with the default encoding and errors arguments. -/
def unquote (s : String) : String := String.mk (percentDecodeLoop s.data [])

/-! ## convert_formula_uuids_to_prop (source lines 553-634) -/

/-- The opening brace character, written by code point. -/
def lbraceChar : Char := Char.ofNat 123

/-- The closing brace character, written by code point. -/
def rbraceChar : Char := Char.ofNat 125

/-- The literal head of a formula reference token: two opening braces and the
namespace text up to the first capture group. -/
def tokenStartChars : List Char :=
  [lbraceChar, lbraceChar] ++ "notion:block_property:".data

/-- Drop an expected literal from the front of a character list. -/
def dropLiteral : List Char → List Char → Option (List Char)
  | [], cs => some cs
  | _ :: _, [] => none
  | p :: ps, c :: cs => if c = p then dropLiteral ps cs else none

/-- One capture group of the token pattern: a nonempty maximal run of
non-colon characters followed by a colon separator. -/
def splitOnColon (cs : List Char) : Option (List Char × List Char) :=
  match cs.dropWhile (fun c => decide (c ≠ ':')) with
  | c0 :: rest =>
    if c0 = ':' then
      if (cs.takeWhile (fun c => decide (c ≠ ':'))).isEmpty then none
      else some (cs.takeWhile (fun c => decide (c ≠ ':')), rest)
    else none
  | [] => none

/-- The final part of the token pattern: a nonempty maximal run of
non-closing-brace characters followed by two closing braces. -/
def splitBody (cs : List Char) : Option (List Char × List Char) :=
  match cs.dropWhile (fun c => decide (c ≠ rbraceChar)) with
  | c1 :: c2 :: rest =>
    if (cs.takeWhile (fun c => decide (c ≠ rbraceChar))).isEmpty then none
    else if c1 = rbraceChar && c2 = rbraceChar then
      some (cs.takeWhile (fun c => decide (c ≠ rbraceChar)), rest)
    else none
  | _ => none

/-- Match the token regular expression at the head of the input: on success
the three capture groups (property id, database id, page id) and the
remaining input. -/
def tryMatchToken (cs : List Char) : Option (String × String × String × List Char) :=
  match dropLiteral tokenStartChars cs with
  | none => none
  | some rest1 =>
    match splitOnColon rest1 with
    | none => none
    | some (p, rest2) =>
      match splitOnColon rest2 with
      | none => none
      | some (d, rest3) =>
        match splitBody rest3 with
        | none => none
        | some (r, rest4) => some (String.mk p, String.mk d, String.mk r, rest4)

/-- The text of a whole token, as match.group(0) reconstructs it. -/
def tokenText (p d r : String) : String :=
  String.mk tokenStartChars ++ p ++ ":" ++ d ++ ":" ++ r ++
    String.mk [rbraceChar, rbraceChar]

/-- Python str.replace("-", ""): remove every hyphen. -/
def removeHyphens (s : String) : String :=
  String.mk (s.data.filter (fun c => decide (c ≠ '-')))

/-- The all-zero database id sentinel after hyphen removal. -/
def zeros32 : String := "00000000000000000000000000000000"

/-- Escape embedded double quotes as the replacer does. -/
def escapeQuotes (s : String) : String :=
  String.mk (List.flatten (s.data.map (fun c =>
    if c = Char.ofNat 34 then [Char.ofNat 92, Char.ofNat 34] else [c])))

/-- Render a portable name-based property reference. -/
def propCall (name : String) : String := "prop(\"" ++ escapeQuotes name ++ "\")"

/-- The property-id-to-name table for one database: for each property with a
truthy id, both the URL-decoded id and the raw id map to the property name,
the raw assignment coming second. -/
def buildIdToName (properties : List (String × String)) : Dict String String :=
  properties.foldl (fun m pr =>
    if pr.2 = "" then m else dictSet (dictSet m (unquote pr.2) pr.1) pr.2 pr.1) []

/-- The table of property-id-to-name tables for every in-scope database,
keyed by hyphen-normalized database id. -/
def buildAllDbIdToName (allDbProperties : List (String × List (String × String))) :
    Dict String (Dict String String) :=
  allDbProperties.foldl (fun m pr => dictSet m (removeHyphens pr.1) (buildIdToName pr.2)) []

/-- The replace_uuid callback: resolve the token's property id in the owning
database's table when the database id normalizes to the all-zero sentinel,
else in the referenced database's table, trying the raw id first and then its
URL-decoded form; an unresolved token is reproduced verbatim. -/
def replaceUuid (own : Dict String String) (allDb : Dict String (Dict String String))
    (p d r : String) : String :=
  let dbId := removeHyphens d
  if dbId = zeros32 then
    match dictGet own p with
    | some name => propCall name
    | none =>
      match dictGet own (unquote p) with
      | some name => propCall name
      | none => tokenText p d r
  else
    match dictGet allDb dbId with
    | none => tokenText p d r
    | some dbMap =>
      match dictGet dbMap p with
      | some name => propCall name
      | none =>
        match dictGet dbMap (unquote p) with
        | some name => propCall name
        | none => tokenText p d r

/-- Soundness of the token matcher is proved below; here only the length
bound needed for termination of the substitution scan. -/
theorem dropLiteral_eq {lit cs rest : List Char}
    (h : dropLiteral lit cs = some rest) : cs = lit ++ rest := by
  induction lit generalizing cs with
  | nil =>
    simp only [dropLiteral, Option.some.injEq] at h
    simpa using h
  | cons p ps ih =>
    cases cs with
    | nil => simp [dropLiteral] at h
    | cons c cs =>
      by_cases hc : c = p
      · simp only [dropLiteral, hc, if_pos rfl] at h
        simpa [hc] using ih h
      · simp [dropLiteral, hc] at h

theorem splitOnColon_eq {cs p rest : List Char}
    (h : splitOnColon cs = some (p, rest)) :
    cs = p ++ ':' :: rest ∧ p = cs.takeWhile (fun c => decide (c ≠ ':')) := by
  unfold splitOnColon at h
  split at h
  next c0 rest1 heq =>
    split at h
    next hc0 =>
      split at h
      · exact absurd h (by simp)
      · obtain ⟨h1, h2⟩ : cs.takeWhile (fun c => decide (c ≠ ':')) = p ∧ rest1 = rest := by
          simpa using h
        subst h1 h2
        refine ⟨?_, rfl⟩
        conv_lhs => rw [← List.takeWhile_append_dropWhile
          (p := fun c => decide (c ≠ ':')) (l := cs)]
        rw [heq, hc0]
    next => exact absurd h (by simp)
  next => exact absurd h (by simp)

theorem splitBody_eq {cs r rest : List Char}
    (h : splitBody cs = some (r, rest)) :
    cs = r ++ rbraceChar :: rbraceChar :: rest ∧
      r = cs.takeWhile (fun c => decide (c ≠ rbraceChar)) := by
  unfold splitBody at h
  split at h
  next c1 c2 rest2 heq =>
    split at h
    · exact absurd h (by simp)
    · split at h
      next hbr =>
        obtain ⟨hb1, hb2⟩ : c1 = rbraceChar ∧ c2 = rbraceChar := by simpa using hbr
        obtain ⟨h1, h2⟩ : cs.takeWhile (fun c => decide (c ≠ rbraceChar)) = r ∧
            rest2 = rest := by simpa using h
        subst h1 h2
        refine ⟨?_, rfl⟩
        conv_lhs => rw [← List.takeWhile_append_dropWhile
          (p := fun c => decide (c ≠ rbraceChar)) (l := cs)]
        rw [heq, hb1, hb2]
      · exact absurd h (by simp)
  next => exact absurd h (by simp)

theorem tryMatchToken_eq {cs : List Char} {p d r : String} {rem : List Char}
    (h : tryMatchToken cs = some (p, d, r, rem)) :
    cs = tokenStartChars ++ p.data ++ ':' :: d.data ++ ':' :: r.data ++
      rbraceChar :: rbraceChar :: rem := by
  unfold tryMatchToken at h
  split at h
  next => exact absurd h (by simp)
  next rest1 hlit =>
    split at h
    next => exact absurd h (by simp)
    next pp rest2 hp =>
      split at h
      next => exact absurd h (by simp)
      next dd rest3 hd =>
        split at h
        next => exact absurd h (by simp)
        next rr rest4 hr =>
          obtain ⟨rfl, rfl, rfl, rfl⟩ :
              String.mk pp = p ∧ String.mk dd = d ∧ String.mk rr = r ∧ rest4 = rem := by
            simpa using h
          have e1 := dropLiteral_eq hlit
          have e2 := (splitOnColon_eq hp).1
          have e3 := (splitOnColon_eq hd).1
          have e4 := (splitBody_eq hr).1
          subst e1 e2 e3 e4
          simp

theorem tryMatchToken_rem_length {cs : List Char} {p d r : String} {rem : List Char}
    (h : tryMatchToken cs = some (p, d, r, rem)) : rem.length < cs.length := by
  have e := tryMatchToken_eq h
  subst e
  simp [tokenStartChars]
  omega

/-- The substitution scan of re.sub: find the leftmost token match, replace
it through the callback, continue after it; characters outside matches pass
through unchanged. -/
def convertChars (own : Dict String String) (allDb : Dict String (Dict String String)) :
    List Char → List Char
  | [] => []
  | c :: cs =>
    match h : tryMatchToken (c :: cs) with
    | some (p, d, r, rem) =>
      (replaceUuid own allDb p d r).data ++ convertChars own allDb rem
    | none => c :: convertChars own allDb cs
termination_by l => l.length
decreasing_by
  · exact tryMatchToken_rem_length h
  · simp

/-- convert_formula_uuids_to_prop: properties are given as (name, id) pairs
in dictionary order (the Python function reads only the name and the id of
each property value); the optional all-databases argument is the list of
(database id, properties) pairs, empty when absent. -/
def convert_formula_uuids_to_prop (expression : String)
    (properties : List (String × String))
    (allDbProperties : List (String × List (String × String))) : String :=
  String.mk (convertChars (buildIdToName properties)
    (buildAllDbIdToName allDbProperties) expression.data)

/-! ## property_schema_config (source lines 263-321) and
build_database_properties (source lines 324-365) -/

/-- A source property definition: the tagged variant the dump holds, with
each variant carrying the configuration the translator reads. Optional
string fields model keys that may be absent; Python treats an absent key and
an empty string alike where it tests truthiness, and the translator below
checks both. The other case covers any unrecognized type tag. -/
inductive SourceProperty where
  | title
  | rich_text
  | date
  | people
  | files
  | checkbox
  | url
  | email
  | phone_number
  | status
  | number (format : Option String)
  | select (options : List SelectOption)
  | multi_select (options : List SelectOption)
  | formula (expression : Option String)
  | relation (databaseId : Option String) (relationType : Option String)
  | rollup (relationPropertyName : Option String) (rollupPropertyName : Option String)
      (function : Option String)
  | other (tag : String)
deriving DecidableEq, Repr

/-- A destination property configuration as the translator emits it. A
relation configuration records the target database id and the cardinality
key the payload carries. -/
inductive DestPropConfig where
  | emptyConfig
  | numberConfig (format : String)
  | optionsConfig (options : List SanitizedOption)
  | formulaConfig (expression : String)
  | relationConfig (databaseId : String) (cardinality : String)
  | rollupConfig (relationPropertyName : String) (rollupPropertyName : String)
      (function : String)
deriving DecidableEq, Repr

/-- Truthiness of an optional string: Python drops both a missing and an
empty value. -/
def truthy : Option String → Bool
  | none => false
  | some s => s ≠ ""

/-- property_schema_config: the per-type translation. Returns none for an
unsupported property (dropped with a warning by the caller), else the
destination type tag, its configuration and the dependency marker. -/
def property_schema_config (sourceProperty : SourceProperty)
    (sourceToDestDbMap : Dict String String) :
    Option (String × DestPropConfig × Option String) :=
  match sourceProperty with
  | .title => some ("title", .emptyConfig, none)
  | .rich_text => some ("rich_text", .emptyConfig, none)
  | .date => some ("date", .emptyConfig, none)
  | .people => some ("people", .emptyConfig, none)
  | .files => some ("files", .emptyConfig, none)
  | .checkbox => some ("checkbox", .emptyConfig, none)
  | .url => some ("url", .emptyConfig, none)
  | .email => some ("email", .emptyConfig, none)
  | .phone_number => some ("phone_number", .emptyConfig, none)
  | .status => some ("status", .emptyConfig, none)
  | .number format => some ("number", .numberConfig (format.getD "number"), none)
  | .select options =>
    some ("select", .optionsConfig (sanitize_select_options options 100), none)
  | .multi_select options =>
    some ("multi_select", .optionsConfig (sanitize_select_options options 100), none)
  | .formula expression =>
    match expression with
    | none => none
    | some e => if e = "" then none else some ("formula", .formulaConfig e, some "formula")
  | .relation databaseId _ =>
    match databaseId with
    | none => none
    | some dbId =>
      if dbId = "" then none
      else
        some ("relation",
          .relationConfig ((dictGet sourceToDestDbMap dbId).getD dbId) "single_property",
          some "relation")
  | .rollup relName rollName fn =>
    if truthy relName && truthy rollName && truthy fn then
      some ("rollup", .rollupConfig (relName.getD "") (rollName.getD "") (fn.getD ""),
        some "rollup")
    else none
  | .other _ => none

/-- One entry of a database's properties dictionary: the property name (the
key), the property id the value carries (empty when absent) and the typed
definition. -/
structure SourcePropEntry where
  name : String
  id : String
  schema : SourceProperty
deriving DecidableEq, Repr

/-- The (name, id) pairs the formula converter reads from a properties
dictionary. -/
def propIdTable (entries : List SourcePropEntry) : List (String × String) :=
  entries.map (fun e => (e.name, e.id))

/-- One translated property as staged for creation: name, destination type
tag and configuration (the payload dict with the type tag as its one key). -/
structure StagedProperty where
  name : String
  type : String
  config : DestPropConfig
deriving DecidableEq, Repr

/-- The dependency markers that make a property deferred. -/
def deferredMarkers : List String := ["formula", "relation", "rollup"]

/-- The loop of build_database_properties over the source properties,
accumulating (immediate, deferred, warnings) in iteration order. -/
def buildPropertiesLoop (sourceToDestDbMap : Dict String String) (deferComplex : Bool)
    (idTable : List (String × String))
    (allDbProperties : List (String × List (String × String))) :
    List SourcePropEntry →
    List StagedProperty × List StagedProperty × List String
  | [] => ([], [], [])
  | e :: rest =>
    let (immediate, deferred, warnings) :=
      buildPropertiesLoop sourceToDestDbMap deferComplex idTable allDbProperties rest
    match property_schema_config e.schema sourceToDestDbMap with
    | none =>
      (immediate, deferred,
        ("Skipped unsupported schema property " ++ e.name ++ ".") :: warnings)
    | some (ptype, config, marker) =>
      let config :=
        if ptype = "formula" then
          match config with
          | .formulaConfig expr =>
            DestPropConfig.formulaConfig
              (convert_formula_uuids_to_prop expr idTable allDbProperties)
          | c => c
        else config
      if deferComplex && (match marker with
          | some m => m ∈ deferredMarkers
          | none => false) then
        (immediate, ⟨e.name, ptype, config⟩ :: deferred, warnings)
      else
        (⟨e.name, ptype, config⟩ :: immediate, deferred, warnings)

/-- build_database_properties: translate every property, splitting immediate
from deferred, then inject a fallback Name title property when no title
survived in either set. -/
def build_database_properties (entries : List SourcePropEntry)
    (sourceToDestDbMap : Dict String String) (deferComplex : Bool)
    (allDbProperties : List (String × List (String × String))) :
    List StagedProperty × List StagedProperty × List String :=
  let (immediate, deferred, warnings) :=
    buildPropertiesLoop sourceToDestDbMap deferComplex (propIdTable entries)
      allDbProperties entries
  let hasTitle :=
    immediate.any (fun p => p.type = "title") || deferred.any (fun p => p.type = "title")
  if hasTitle then (immediate, deferred, warnings)
  else
    (immediate ++ [⟨"Name", "title", .emptyConfig⟩], deferred,
      warnings ++ ["Source database had no valid title property; added fallback Name."])

/-! ## extract_relation_properties (source lines 508-528) -/

/-- A relation property descriptor captured at dump time for the mapping
store. -/
structure RelationDescriptor where
  source_db_id : String
  property_name : String
  target_db_id : String
  relation_type : String
deriving DecidableEq, Repr

/-- extract_relation_properties: one descriptor per relation-typed property,
with defaults for missing fields. -/
def extract_relation_properties (sourceDbId : String)
    (entries : List SourcePropEntry) : List RelationDescriptor :=
  entries.filterMap (fun e =>
    match e.schema with
    | .relation dbId relType =>
      some ⟨sourceDbId, e.name, dbId.getD "", relType.getD "single_property"⟩
    | _ => none)

/-! ## The create-or-skip scheduler of upload_dump_to_destination
(source lines 816-874)

Database titles are modelled at the plain-text level: the discovery step
reads a destination database's plain title, and a created database's plain
title is the plain text of the sanitized source title (the source title when
nonempty, else the Duplicated fallback built from the id). -/

/-- One dumped database record as the scheduler consumes it: its source id,
its plain title (empty when the source title array is empty) and its
properties. -/
structure SourceDb where
  id : String
  title : String
  entries : List SourcePropEntry
deriving DecidableEq, Repr

/-- One destination child database under the parent page. -/
structure DestDb where
  id : String
  title : String
deriving DecidableEq, Repr

/-- The discovery step: index existing destination databases by nonempty
plain title (a later duplicate title overwrites an earlier one, as in the
Python dict). -/
def buildExistingByTitle (dest : List DestDb) : Dict String String :=
  dest.foldl (fun m d => if d.title = "" then m else dictSet m d.title d.id) []

/-- The plain text of sanitize_database_title: the source title when
nonempty, else the Duplicated fallback naming the source id. -/
def sanitizeTitlePlain (db : SourceDb) : String :=
  if db.title = "" then "Duplicated " ++ db.id else db.title

/-- Destination ids handed out by the create call, distinguished by a
counter. -/
def freshDestId (n : Nat) : String := "dest-" ++ toString n

/-- The scheduler state threaded through the create-or-skip loop. -/
structure UploadSchemasState where
  existing : Dict String String
  destState : List DestDb
  dbMap : Dict String String
  skipped : List String
  createdCount : Nat
  fresh : Nat
deriving DecidableEq, Repr

/-- The create branch: create the destination database, record the mapping,
and add the new database to the by-title index when the source title is
nonempty. -/
def uploadSchemaCreate (st : UploadSchemasState) (db : SourceDb) : UploadSchemasState :=
  { existing :=
      if db.title = "" then st.existing else dictSet st.existing db.title (freshDestId st.fresh),
    destState := st.destState ++ [⟨freshDestId st.fresh, sanitizeTitlePlain db⟩],
    dbMap := dictSet st.dbMap db.id (freshDestId st.fresh),
    skipped := st.skipped,
    createdCount := st.createdCount + 1,
    fresh := st.fresh + 1 }

/-- One iteration of the create-or-skip loop: a source database whose
nonempty title matches an existing destination database is recorded as
skipped and mapped to it; otherwise the destination database is created. -/
def uploadSchemaStep (st : UploadSchemasState) (db : SourceDb) : UploadSchemasState :=
  if db.title = "" then uploadSchemaCreate st db
  else
    match dictGet st.existing db.title with
    | some destId =>
      { st with
        dbMap := dictSet st.dbMap db.id destId,
        skipped := st.skipped ++ [db.id] }
    | none => uploadSchemaCreate st db

/-- The whole create-or-skip loop over the dumped databases in manifest
order. -/
def upload_schemas_loop : List SourceDb → UploadSchemasState → UploadSchemasState
  | [], st => st
  | db :: rest, st => upload_schemas_loop rest (uploadSchemaStep st db)

/-- One upload run's schema phase: discover existing databases under the
parent, then create or skip each dumped database. -/
def run_upload_schemas (dbs : List SourceDb) (dest : List DestDb) (fresh : Nat) :
    UploadSchemasState :=
  upload_schemas_loop dbs
    { existing := buildExistingByTitle dest, destState := dest, dbMap := [],
      skipped := [], createdCount := 0, fresh := fresh }

/-! ## The identifier mapping store (load_id_mapping / save_id_mapping,
source lines 773-786, and its update during upload, lines 847 and 877-881) -/

/-- A rollup property descriptor captured at dump time. -/
structure RollupDescriptor where
  source_db_id : String
  property_name : String
  relation_property_name : String
  rollup_property_name : String
  function : String
deriving DecidableEq, Repr

/-- A formula property descriptor captured at dump time, holding both the
original and the rewritten expression. -/
structure FormulaDescriptor where
  source_db_id : String
  property_name : String
  original_expression : String
  expression : String
deriving DecidableEq, Repr

/-- The persisted id_mapping.json content. -/
structure IdMapping where
  created_at : Option String
  updated_at : Option String
  database_mappings : List (String × String)
  relation_properties : List RelationDescriptor
  rollup_properties : List RollupDescriptor
  formula_properties : List FormulaDescriptor
  skipped_databases : List String
deriving DecidableEq, Repr

/-- save_id_mapping: stamp the updated_at timestamp and persist the store
(the persisted content is the returned value). -/
def save_id_mapping (now : String) (m : IdMapping) : IdMapping :=
  { m with updated_at := some now }

/-- What one upload run does to the loaded store before saving it: the
database mappings are set from this run's source-to-destination map, the ids
skipped this run are appended to the skipped list, and every other field is
left alone (the scheduler's skip branch appends to skipped_databases and the
save step after schema creation rewrites database_mappings). -/
def upload_store_update (m : IdMapping) (r : UploadSchemasState) (now : String) : IdMapping :=
  save_id_mapping now
    { m with
      database_mappings := r.dbMap,
      skipped_databases := m.skipped_databases ++ r.skipped }

/-! ## The three deferred-property phases (source lines 883-994) -/

/-- One property-update call issued during the deferred phases. -/
structure UpdateEvent where
  sourceDbId : String
  destDbId : String
  propName : String
  kind : String
deriving DecidableEq, Repr

/-- One phase's traversal: over the non-skipped databases in order, rebuild
the deferred properties with the full schema map, keep only those whose
payload type is the phase's tag, and issue one update call per property. -/
def phaseEvents (kindTag : String) (dbs : List SourceDb) (dbMap : Dict String String)
    (skipped : List String) (allDb : List (String × List (String × String))) :
    List UpdateEvent :=
  (dbs.filter (fun db => decide (db.id ∉ skipped))).flatMap (fun db =>
    match dictGet dbMap db.id with
    | none => []
    | some destId =>
      if destId = "" then []
      else
        ((build_database_properties db.entries dbMap true allDb).2.1.filter
            (fun p => p.type = kindTag)).map
          (fun p => ⟨db.id, destId, p.name, kindTag⟩))

/-- The full deferred-property call trace of one upload run: Phase 1
relations, then Phase 2 rollups, then Phase 3 formulas. -/
def upload_deferred_trace (dbs : List SourceDb) (dbMap : Dict String String)
    (skipped : List String) (allDb : List (String × List (String × String))) :
    List UpdateEvent :=
  phaseEvents "relation" dbs dbMap skipped allDb ++
    phaseEvents "rollup" dbs dbMap skipped allDb ++
      phaseEvents "formula" dbs dbMap skipped allDb

/-- The dependency rank of a phase tag. -/
def kindRank (k : String) : Nat :=
  if k = "relation" then 0 else if k = "rollup" then 1 else 2

/-! ## The record migrator (source lines 1002-1054) and
remap_relation_update (source lines 479-494) -/

/-- A record's property value as the migrator reads it: a relation-typed
value carries the referenced record ids (an empty id models a page_ref with
no id key); every other type plays no role in relation remapping. -/
inductive PagePropValue where
  | relationValue (refs : List String)
  | otherValue
deriving DecidableEq, Repr

/-- One dumped record: its source id (empty when absent) and its properties
in dictionary order. -/
structure SrcPage where
  id : String
  props : List (String × PagePropValue)
deriving DecidableEq, Repr

/-- extract_relation_properties_for_update: one entry per relation-typed
property, keeping the truthy referenced ids. -/
def extract_relation_properties_for_update (props : List (String × PagePropValue)) :
    List (String × List String) :=
  props.filterMap (fun pr =>
    match pr.2 with
    | .relationValue refs => some (pr.1, refs.filter (fun r => decide (r ≠ "")))
    | .otherValue => none)

/-- remap_relation_update: every reference is pushed through the record id
map; a reference that does not resolve (or resolves to a falsy id) is
dropped; the property keys are all kept. -/
def remap_relation_update (relationUpdate : List (String × List String))
    (pageMap : Dict String String) : List (String × List String) :=
  relationUpdate.map (fun pr =>
    (pr.1, pr.2.filterMap (fun r =>
      if r = "" then none
      else
        match dictGet pageMap r with
        | none => none
        | some destId => if destId = "" then none else some destId)))

/-- The record migrator's state: the source-to-destination record id map,
the deferred relation updates (destination page id with the extracted source
relation values) and how many creations failed with a warning. -/
structure MigrationState where
  pageMap : Dict String String
  deferredRelations : List (String × List (String × List String))
  failedCount : Nat
deriving DecidableEq, Repr

/-- The per-record creation loop: outcome i is the destination id the create
call returns for the i-th record, or none when it raises an API error (the
record is warned and skipped; every other record is still processed). -/
def migrate_pages_loop (outcome : Nat → Option String) :
    Nat → List SrcPage → MigrationState → MigrationState
  | _, [], st => st
  | i, p :: rest, st =>
    match outcome i with
    | none =>
      migrate_pages_loop outcome (i + 1) rest { st with failedCount := st.failedCount + 1 }
    | some destId =>
      if p.id ≠ "" ∧ destId ≠ "" then
        migrate_pages_loop outcome (i + 1) rest
          { pageMap := dictSet st.pageMap p.id destId,
            deferredRelations :=
              if (extract_relation_properties_for_update p.props).isEmpty then
                st.deferredRelations
              else st.deferredRelations ++
                [(destId, extract_relation_properties_for_update p.props)],
            failedCount := st.failedCount }
      else migrate_pages_loop outcome (i + 1) rest st

/-- The second pass: remap each deferred relation update through the full
record id map and issue it (a remap that comes back empty is skipped). -/
def issued_relation_updates (deferred : List (String × List (String × List String)))
    (pageMap : Dict String String) : List (String × List (String × List String)) :=
  deferred.filterMap (fun du =>
    if (remap_relation_update du.2 pageMap).isEmpty then none
    else some (du.1, remap_relation_update du.2 pageMap))

/-- The whole record migration for one destination database: the creation
loop then the relation update pass. -/
def migrate_records (pages : List SrcPage) (outcome : Nat → Option String) :
    MigrationState × List (String × List (String × List String)) :=
  (migrate_pages_loop outcome 0 pages ⟨[], [], 0⟩,
    issued_relation_updates
      (migrate_pages_loop outcome 0 pages ⟨[], [], 0⟩).deferredRelations
      (migrate_pages_loop outcome 0 pages ⟨[], [], 0⟩).pageMap)

/-! ## Helper lemmas for the select-option sanitizer -/

theorem sanitizeOptionsLoop_length_le (l : List SelectOption) :
    (sanitizeOptionsLoop l).length ≤ l.length := by
  induction l with
  | nil => simp [sanitizeOptionsLoop]
  | cons o os ih =>
    cases h : o.name with
    | none => simp [sanitizeOptionsLoop, h]; omega
    | some n =>
      by_cases hn : n = "" <;> simp [sanitizeOptionsLoop, h, hn] <;> omega

theorem sanitizeOptionsLoop_mem {l : List SelectOption} {so : SanitizedOption}
    (h : so ∈ sanitizeOptionsLoop l) :
    ∃ o ∈ l, o.name = some so.name ∧ so.color = o.color.getD "default" := by
  induction l with
  | nil => simp [sanitizeOptionsLoop] at h
  | cons o os ih =>
    cases ho : o.name with
    | none =>
      rw [sanitizeOptionsLoop, ho] at h
      obtain ⟨o', ho', hp⟩ := ih h
      exact ⟨o', List.mem_cons_of_mem _ ho', hp⟩
    | some n =>
      by_cases hn : n = ""
      · simp only [sanitizeOptionsLoop, ho, if_pos hn] at h
        obtain ⟨o', ho', hp⟩ := ih h
        exact ⟨o', List.mem_cons_of_mem _ ho', hp⟩
      · simp only [sanitizeOptionsLoop, ho, if_neg hn] at h
        rcases List.mem_cons.mp h with hh | ht
        · subst hh
          exact ⟨o, List.mem_cons_self _ _, by simp [ho]⟩
        · obtain ⟨o', ho', hp⟩ := ih ht
          exact ⟨o', List.mem_cons_of_mem _ ho', hp⟩

theorem sanitizeOptionsLoop_eq_filterMap (l : List SelectOption) :
    sanitizeOptionsLoop l = l.filterMap (fun o =>
      match o.name with
      | none => none
      | some n => if n = "" then none
        else some { name := n, color := o.color.getD "default" }) := by
  induction l with
  | nil => rfl
  | cons o os ih =>
    cases ho : o.name with
    | none => simp [sanitizeOptionsLoop, ho, List.filterMap_cons, ih]
    | some n =>
      by_cases hn : n = "" <;>
        simp [sanitizeOptionsLoop, ho, hn, List.filterMap_cons, ih]

/-- C8. Select and multi-select option cap: the sanitizer keeps at most 100
options, everything past the first 100 input options is silently dropped
(the output does not change when the input is cut at 100), and every kept
option is the name-and-color reduction of one of the first 100 input
options, the color defaulting to "default". -/
theorem select_options_cap (options : List SelectOption) :
    (sanitize_select_options options 100).length ≤ 100 ∧
    sanitize_select_options options 100 = sanitize_select_options (options.take 100) 100 ∧
    ∀ so ∈ sanitize_select_options options 100,
      ∃ o ∈ options.take 100, o.name = some so.name ∧ so.color = o.color.getD "default" := by
  refine ⟨?_, ?_, ?_⟩
  · calc (sanitize_select_options options 100).length
        ≤ (options.take 100).length := sanitizeOptionsLoop_length_le _
      _ ≤ 100 := by simpa using List.length_take_le 100 options
  · unfold sanitize_select_options
    simp [List.take_take]
  · intro so hso
    exact sanitizeOptionsLoop_mem hso

/-- C10. The sanitizer truncates before filtering: it equals taking the
first 100 options and then filter-mapping the named ones to their
name-and-color reduction (color defaulting to "default"); concretely, with
an unnamed option first, 99 named ones, and one more named option at
position 100, the output has 99 entries and the last named option is lost
even though dropping the unnamed option first would have kept it. -/
theorem select_options_truncate_before_filter :
    (∀ options : List SelectOption,
      sanitize_select_options options 100 = (options.take 100).filterMap (fun o =>
        match o.name with
        | none => none
        | some n => if n = "" then none
          else some { name := n, color := o.color.getD "default" })) ∧
    (sanitize_select_options
        ({ name := none, color := none } ::
          (List.replicate 99 ({ name := some "kept", color := none } : SelectOption) ++
            [{ name := some "late", color := some "red" }])) 100).length = 99 ∧
    (sanitize_select_options
        ({ name := none, color := none } ::
          (List.replicate 99 ({ name := some "kept", color := none } : SelectOption) ++
            [{ name := some "late", color := some "red" }])) 100).all
      (fun so => so.name = "kept" && so.color = "default") = true := by
  refine ⟨?_, by decide, by decide⟩
  intro options
  exact sanitizeOptionsLoop_eq_filterMap _

/-! ## C9: dump filename sanitization -/

/-- C9 counterexample. The sanitizer collapses a run of disallowed
characters to one underscore: on the id a??b the filename is a_b.json,
not the per-character replacement a__b.json, and the part before the
suffix is shorter than the input. -/
theorem safe_filename_counterexample :
    safe_database_filename "a??b" = "a_b.json" ∧
    perCharReplacedFilename "a??b" = "a__b.json" ∧
    safe_database_filename "a??b" ≠ perCharReplacedFilename "a??b" ∧
    (collapseDisallowed ("a??b".data)).length ≠ ("a??b".data).length := by
  have hev : collapseDisallowed ("a??b".data) = "a_b".data := by
    simp +decide [collapseDisallowed]
  refine ⟨?_, by decide, ?_, ?_⟩
  · rw [safe_database_filename, hev]
    decide
  · rw [safe_database_filename, hev]
    decide
  · rw [hev]
    decide

theorem noTwoAdjacent_tail {c : Char} {cs : List Char}
    (h : noTwoAdjacentDisallowed (c :: cs) = true) :
    noTwoAdjacentDisallowed cs = true := by
  cases cs with
  | nil => rfl
  | cons b rest =>
    simp only [noTwoAdjacentDisallowed, Bool.and_eq_true] at h
    exact h.2

theorem collapseDisallowed_of_noTwoAdjacent :
    ∀ l : List Char, noTwoAdjacentDisallowed l = true →
      collapseDisallowed l = l.map (fun c => if allowedFilenameChar c then c else '_') := by
  intro l
  induction l with
  | nil => intro _; simp [collapseDisallowed]
  | cons c cs ih =>
    intro h
    by_cases hc : allowedFilenameChar c = true
    · rw [collapseDisallowed, if_pos hc, List.map_cons, if_pos hc,
        ih (noTwoAdjacent_tail h)]
    · cases cs with
      | nil =>
        rw [collapseDisallowed, if_neg hc]
        simp [collapseDisallowed, hc]
      | cons b rest =>
        have hb : allowedFilenameChar b = true := by
          simp only [noTwoAdjacentDisallowed, Bool.and_eq_true, Bool.or_eq_true] at h
          rcases h.1 with h1 | h1
          · exact absurd h1 hc
          · exact h1
        rw [collapseDisallowed, if_neg hc]
        have hdrop : (b :: rest).dropWhile (fun d => !allowedFilenameChar d) = b :: rest := by
          rw [List.dropWhile_cons]
          simp [hb]
        rw [hdrop, List.map_cons, if_neg hc, ih (noTwoAdjacent_tail h)]

/-- C9 amended. For ids in which no two adjacent characters are both outside
the allowed set, the filename is exactly the per-character replacement of
the claim followed by the suffix (each maximal disallowed run has length one
there); in general each maximal run collapses to a single underscore, as the
counterexample shows. -/
theorem safe_filename_amended (s : String)
    (h : noTwoAdjacentDisallowed s.data = true) :
    safe_database_filename s = perCharReplacedFilename s := by
  unfold safe_database_filename perCharReplacedFilename
  rw [collapseDisallowed_of_noTwoAdjacent s.data h]

/-- Closed instance discharging the hypothesis of the amended C9 theorem. -/
theorem safe_filename_amended_witness :
    noTwoAdjacentDisallowed ("a?b.x9-_C".data) = true ∧
    safe_database_filename "a?b.x9-_C" = perCharReplacedFilename "a?b.x9-_C" :=
  ⟨by decide, safe_filename_amended "a?b.x9-_C" (by decide)⟩

/-! ## C5: duplicate repair precision -/

/-- One assignment into the per-schema captured-name table of the repairer:
create the schema's name set when the source id is new, else add the name to
the existing set. -/
def addRelationName (m : Dict String (List String)) (sid name : String) :
    Dict String (List String) :=
  match dictGet m sid with
  | none => dictSet m sid [name]
  | some names => dictSet m sid (names ++ [name])

/-- The original_relations table of repair_duplicate_relations (source lines
1095-1102): every captured relation descriptor with a truthy normalized
source id and a truthy property name contributes its name to that schema's
set. -/
def build_original_relations (descriptors : List RelationDescriptor) :
    Dict String (List String) :=
  descriptors.foldl (fun m rel =>
    if removeHyphens rel.source_db_id = "" ∨ rel.property_name = "" then m
    else addRelationName m (removeHyphens rel.source_db_id) rel.property_name) []

/-- The per-destination-database step of repair_duplicate_relations (source
lines 1134-1156), including the enclosing guard at line 1138: sourceId is
what dest_to_source.get returned for the database; when it is falsy, or the
captured table has no entry for it (the source schema has no captured
relation descriptors), the database is skipped and nothing is marked;
otherwise the to_delete loop runs against the captured names. -/
def repair_db_deletions (originalRelations : Dict String (List String))
    (sourceId : Option String) (destProps : List DestProperty) : List String :=
  match sourceId with
  | none => []
  | some sid =>
    if sid = "" then []
    else
      match dictGet originalRelations sid with
      | none => []
      | some names => repair_mark_for_deletion names destProps

/-- The truthy property names among a schema's captured relation
descriptors, in capture order. -/
def capturedRelationNames (descriptors : List RelationDescriptor) : List String :=
  descriptors.filterMap (fun d =>
    if d.property_name = "" then none else some d.property_name)

theorem repair_mark_mem_iff (names : List String) (destProps : List DestProperty)
    (n : String) :
    n ∈ repair_mark_for_deletion names destProps ↔
      ∃ p ∈ destProps, p.name = n ∧ p.type = "relation" ∧
        strStartsWith "Related to " p.name = true ∧ n ∉ names := by
  rw [repair_mark_for_deletion, List.mem_filterMap]
  constructor
  · rintro ⟨p, hp, hf⟩
    by_cases h1 : p.type ≠ "relation"
    · rw [if_pos h1] at hf
      exact absurd hf (by simp)
    · rw [if_neg h1] at hf
      by_cases h2 : p.name ∈ names
      · rw [if_pos h2] at hf
        exact absurd hf (by simp)
      · rw [if_neg h2] at hf
        by_cases h3 : strStartsWith "Related to " p.name = true
        · rw [if_pos h3] at hf
          obtain rfl : p.name = n := by simpa using hf
          exact ⟨p, hp, rfl, not_not.mp h1, h3, h2⟩
        · rw [if_neg h3] at hf
          exact absurd hf (by simp)
  · rintro ⟨p, hp, rfl, htype, hpre, hnotin⟩
    refine ⟨p, hp, ?_⟩
    rw [if_neg (fun hh => hh htype), if_neg hnotin, if_pos hpre]

theorem build_original_relations_aux (k : String) (hk : k ≠ "") :
    ∀ descs : List RelationDescriptor,
      (∀ d ∈ descs, removeHyphens d.source_db_id = k) →
      ∀ m : Dict String (List String),
        dictGet (descs.foldl (fun m rel =>
          if removeHyphens rel.source_db_id = "" ∨ rel.property_name = "" then m
          else addRelationName m (removeHyphens rel.source_db_id) rel.property_name) m) k =
        match dictGet m k with
        | none =>
          if capturedRelationNames descs = [] then none
          else some (capturedRelationNames descs)
        | some ms => some (ms ++ capturedRelationNames descs) := by
  intro descs
  induction descs with
  | nil =>
    intro _ m
    rw [List.foldl_nil]
    cases h : dictGet m k <;> simp [capturedRelationNames]
  | cons d rest ih =>
    intro hall m
    have hd : removeHyphens d.source_db_id = k := hall d (List.mem_cons_self _ _)
    have hrest : ∀ d2 ∈ rest, removeHyphens d2.source_db_id = k :=
      fun d2 h2 => hall d2 (List.mem_cons_of_mem _ h2)
    rw [List.foldl_cons, hd]
    by_cases hn : d.property_name = ""
    · rw [if_pos (Or.inr hn)]
      have hcap : capturedRelationNames (d :: rest) = capturedRelationNames rest := by
        simp [capturedRelationNames, List.filterMap_cons, hn]
      rw [hcap]
      exact ih hrest m
    · rw [if_neg (by simp [hk, hn])]
      have hcap : capturedRelationNames (d :: rest) =
          d.property_name :: capturedRelationNames rest := by
        simp [capturedRelationNames, List.filterMap_cons, hn]
      rw [hcap, addRelationName]
      cases hm : dictGet m k with
      | none =>
        rw [ih hrest (dictSet m k [d.property_name]), dictGet_dictSet_self]
        simp
      | some ms =>
        rw [ih hrest (dictSet m k (ms ++ [d.property_name])), dictGet_dictSet_self]
        simp

theorem extract_relation_properties_src (sid : String) (entries : List SourcePropEntry) :
    ∀ d ∈ extract_relation_properties sid entries, d.source_db_id = sid := by
  intro d hd
  rw [extract_relation_properties, List.mem_filterMap] at hd
  obtain ⟨e, _, he⟩ := hd
  cases hs : e.schema <;> rw [hs] at he
  case relation dbid rtype =>
    injection he with h2
    rw [← h2]
  all_goals exact absurd he (by simp)

theorem build_original_relations_lookup (sid : String) (entries : List SourcePropEntry)
    (hk : removeHyphens sid ≠ "") :
    dictGet (build_original_relations (extract_relation_properties sid entries))
        (removeHyphens sid) =
      if capturedRelationNames (extract_relation_properties sid entries) = [] then none
      else some (capturedRelationNames (extract_relation_properties sid entries)) := by
  have hall : ∀ d ∈ extract_relation_properties sid entries,
      removeHyphens d.source_db_id = removeHyphens sid :=
    fun d hd => by rw [extract_relation_properties_src sid entries d hd]
  rw [build_original_relations,
    build_original_relations_aux (removeHyphens sid) hk
      (extract_relation_properties sid entries) hall []]
  rfl

/-- C5 counterexample. The claim fails on a source schema that has some
relation-typed property (so the repairer's guard passes) and additionally a
non-relation property named Related to Z: that name is among the source
schema's property names, yet the guarded repairer marks a relation-typed
destination property of that name for deletion, because it checks only the
captured relation-typed names. -/
theorem repair_mark_counterexample :
    "Related to Z" ∈
      ([⟨"Owner", "pid0", SourceProperty.relation (some "tgt-db") (some "dual_property")⟩,
        ⟨"Related to Z", "pid1", SourceProperty.rich_text⟩] :
        List SourcePropEntry).map (fun e => e.name) ∧
    "Related to Z" ∈
      repair_db_deletions
        (build_original_relations (extract_relation_properties "src1"
          [⟨"Owner", "pid0", SourceProperty.relation (some "tgt-db") (some "dual_property")⟩,
            ⟨"Related to Z", "pid1", SourceProperty.rich_text⟩]))
        (some (removeHyphens "src1"))
        [⟨"Related to Z", "relation"⟩] := by
  decide

/-- C5 amended. Through the repairer's guarded per-database step: a
destination database whose source schema has no captured relation
descriptors (or no resolvable source id) is skipped entirely and nothing is
deleted; otherwise a destination property is marked for deletion if and only
if it is relation-typed, its name begins with the Related to marker, and its
name is not among the source schema's captured relation-typed property
names — so a property whose name is among those relation-typed names is
never deleted, while a name the source schema holds only as a non-relation
property does not protect it. The last part identifies the captured names
with the source schema's relation-typed property names. -/
theorem repair_db_marks_iff (sid : String) (entries : List SourcePropEntry)
    (destProps : List DestProperty) (n : String) :
    (n ∈ repair_db_deletions
        (build_original_relations (extract_relation_properties sid entries))
        (some (removeHyphens sid)) destProps ↔
      (removeHyphens sid ≠ "" ∧
        capturedRelationNames (extract_relation_properties sid entries) ≠ [] ∧
        ∃ p ∈ destProps, p.name = n ∧ p.type = "relation" ∧
          strStartsWith "Related to " p.name = true ∧
          n ∉ capturedRelationNames (extract_relation_properties sid entries))) ∧
    (∀ m : Dict String (List String), repair_db_deletions m none destProps = []) ∧
    (∀ m : Dict String (List String), repair_db_deletions m (some "") destProps = []) ∧
    (∀ (m : Dict String (List String)) (s : String), dictGet m s = none →
      repair_db_deletions m (some s) destProps = []) ∧
    (extract_relation_properties sid entries).map (fun d => d.property_name) =
      entries.filterMap (fun e =>
        match e.schema with
        | .relation _ _ => some e.name
        | _ => none) := by
  refine ⟨?_, fun m => rfl, fun m => by simp [repair_db_deletions], ?_, ?_⟩
  · by_cases hk : removeHyphens sid = ""
    · rw [hk]
      simp [repair_db_deletions]
    · rw [repair_db_deletions]
      rw [if_neg hk, build_original_relations_lookup sid entries hk]
      by_cases hcap : capturedRelationNames (extract_relation_properties sid entries) = []
      · rw [if_pos hcap]
        simp [hcap]
      · rw [if_neg hcap]
        dsimp only
        rw [repair_mark_mem_iff]
        constructor
        · intro hx
          exact ⟨hk, hcap, hx⟩
        · rintro ⟨_, _, hx⟩
          exact hx
  · intro m s hnone
    rw [repair_db_deletions]
    by_cases hs : s = ""
    · rw [if_pos hs]
    · rw [if_neg hs, hnone]
  · induction entries with
    | nil => rfl
    | cons e rest ih =>
      cases h : e.schema <;>
        simp [extract_relation_properties, List.filterMap_cons, h] <;>
        simpa [extract_relation_properties] using ih

/-! ## C7: relation translation -/

/-- C7. For a relation-typed source property carrying a target database id,
the translation does not depend on the source's cardinality mode, and (for a
truthy id) produces a relation configuration targeting the mapped
destination id when the schema map knows the source target, else the source
id itself as a placeholder, always with the single_property cardinality key
and the deferred relation marker; a relation property without a database id
(or with an empty one) is dropped. -/
theorem relation_translation (dbId : String) (mode mode2 : Option String)
    (m : Dict String String) :
    property_schema_config (.relation (some dbId) mode) m =
      property_schema_config (.relation (some dbId) mode2) m ∧
    (dbId ≠ "" →
      property_schema_config (.relation (some dbId) mode) m =
        some ("relation",
          .relationConfig ((dictGet m dbId).getD dbId) "single_property",
          some "relation")) ∧
    (∀ destId, dbId ≠ "" → dictGet m dbId = some destId →
      property_schema_config (.relation (some dbId) mode) m =
        some ("relation", .relationConfig destId "single_property", some "relation")) ∧
    (dbId ≠ "" → dictGet m dbId = none →
      property_schema_config (.relation (some dbId) mode) m =
        some ("relation", .relationConfig dbId "single_property", some "relation")) ∧
    property_schema_config (.relation none mode) m = none ∧
    property_schema_config (.relation (some "") mode) m = none := by
  refine ⟨rfl, ?_, ?_, ?_, rfl, by simp [property_schema_config]⟩
  · intro hne
    simp [property_schema_config, hne]
  · intro destId hne hsome
    simp [property_schema_config, hne, hsome]
  · intro hne hnone
    simp [property_schema_config, hne, hnone]

/-! ## C2: additive merge of the identifier mapping store -/

/-- C2. Saving the store stamps the updated_at timestamp, and an upload
run's store update only rewrites the database mappings and appends this
run's skipped ids: across two consecutive runs the relation, rollup and
formula descriptors and the creation timestamp are exactly those loaded
at the start, and the skipped ids accumulate additively. -/
theorem id_mapping_additive_merge (m : IdMapping) (r1 r2 : UploadSchemasState)
    (t1 t2 : String) :
    (upload_store_update m r1 t1).relation_properties = m.relation_properties ∧
    (upload_store_update m r1 t1).rollup_properties = m.rollup_properties ∧
    (upload_store_update m r1 t1).formula_properties = m.formula_properties ∧
    (upload_store_update m r1 t1).created_at = m.created_at ∧
    (upload_store_update m r1 t1).updated_at = some t1 ∧
    (upload_store_update m r1 t1).skipped_databases =
      m.skipped_databases ++ r1.skipped ∧
    (upload_store_update (upload_store_update m r1 t1) r2 t2).relation_properties =
      m.relation_properties ∧
    (upload_store_update (upload_store_update m r1 t1) r2 t2).rollup_properties =
      m.rollup_properties ∧
    (upload_store_update (upload_store_update m r1 t1) r2 t2).formula_properties =
      m.formula_properties ∧
    (upload_store_update (upload_store_update m r1 t1) r2 t2).created_at =
      m.created_at ∧
    (upload_store_update (upload_store_update m r1 t1) r2 t2).updated_at = some t2 ∧
    (upload_store_update (upload_store_update m r1 t1) r2 t2).skipped_databases =
      m.skipped_databases ++ r1.skipped ++ r2.skipped := by
  simp [upload_store_update, save_id_mapping]

/-! ## C3: the three deferred-property phases -/

theorem phaseEvents_forall (kindTag : String) (dbs : List SourceDb)
    (dbMap : Dict String String) (skipped : List String)
    (allDb : List (String × List (String × String))) :
    ∀ e ∈ phaseEvents kindTag dbs dbMap skipped allDb,
      e.kind = kindTag ∧ e.sourceDbId ∉ skipped := by
  intro e he
  rw [phaseEvents, List.mem_flatMap] at he
  obtain ⟨db, hdb, hmem⟩ := he
  rw [List.mem_filter] at hdb
  have hskip : db.id ∉ skipped := of_decide_eq_true hdb.2
  cases hq : dictGet dbMap db.id with
  | none => rw [hq] at hmem; simp at hmem
  | some destId =>
    rw [hq] at hmem
    dsimp only at hmem
    by_cases hd : destId = ""
    · rw [if_pos hd] at hmem; simp at hmem
    · rw [if_neg hd] at hmem
      rw [List.mem_map] at hmem
      obtain ⟨pstg, _, hpe⟩ := hmem
      subst hpe
      exact ⟨rfl, hskip⟩

/-- C3. Within one upload run the deferred-property call trace is ordered by
dependency phase: the rank of the phase tag (relation before rollup before
formula) never decreases along the trace, so every relation update precedes
every rollup update and every rollup update precedes every formula update;
and no update in the trace targets a schema recorded as skipped. -/
theorem deferred_phase_ordering (dbs : List SourceDb) (dbMap : Dict String String)
    (skipped : List String) (allDb : List (String × List (String × String))) :
    (upload_deferred_trace dbs dbMap skipped allDb).Pairwise
      (fun a b => kindRank a.kind ≤ kindRank b.kind) ∧
    ∀ e ∈ upload_deferred_trace dbs dbMap skipped allDb, e.sourceDbId ∉ skipped := by
  have h1 := phaseEvents_forall "relation" dbs dbMap skipped allDb
  have h2 := phaseEvents_forall "rollup" dbs dbMap skipped allDb
  have h3 := phaseEvents_forall "formula" dbs dbMap skipped allDb
  have hrank12 : ∀ e, e ∈ phaseEvents "relation" dbs dbMap skipped allDb ++
      phaseEvents "rollup" dbs dbMap skipped allDb → kindRank e.kind ≤ 1 := by
    intro e he
    rcases List.mem_append.mp he with he1 | he2
    · rw [(h1 e he1).1]; simp [kindRank]
    · rw [(h2 e he2).1]; simp [kindRank]
  constructor
  · rw [upload_deferred_trace, List.pairwise_append]
    refine ⟨?_, List.pairwise_of_forall_mem_list (fun a ha b hb => ?_), ?_⟩
    · rw [List.pairwise_append]
      refine ⟨List.pairwise_of_forall_mem_list (fun a ha b hb => ?_),
        List.pairwise_of_forall_mem_list (fun a ha b hb => ?_), ?_⟩
      · rw [(h1 a ha).1, (h1 b hb).1]
      · rw [(h2 a ha).1, (h2 b hb).1]
      · intro a ha b hb
        rw [(h1 a ha).1, (h2 b hb).1]
        simp [kindRank]
    · rw [(h3 a ha).1, (h3 b hb).1]
    · intro a ha b hb
      have hb3 := (h3 b hb).1
      rw [hb3]
      calc kindRank a.kind ≤ 1 := hrank12 a ha
        _ ≤ kindRank "formula" := by simp [kindRank]
  · intro e he
    rw [upload_deferred_trace] at he
    rcases List.mem_append.mp he with he12 | he3
    · rcases List.mem_append.mp he12 with he1 | he2
      · exact (h1 e he1).2
      · exact (h2 e he2).2
    · exact (h3 e he3).2

/-! ## C1: idempotent upload -/

theorem dictGet_dictSet {α β : Type} [DecidableEq α]
    (m : Dict α β) (k : α) (v : β) (t : α) :
    dictGet (dictSet m k v) t = if k = t then some v else dictGet m t := by
  simp [dictGet, dictSet]

/-- Every title the by-title index knows belongs to some destination
database in the current destination state. -/
def ExistingCovered (st : UploadSchemasState) : Prop :=
  ∀ t, (dictGet st.existing t).isSome = true → ∃ d ∈ st.destState, d.title = t

theorem buildExisting_aux_isSome (dest : List DestDb) :
    ∀ (m : Dict String String) (t : String),
      (dictGet (dest.foldl
        (fun m d => if d.title = "" then m else dictSet m d.title d.id) m) t).isSome = true →
      (dictGet m t).isSome = true ∨ ∃ d ∈ dest, d.title = t := by
  induction dest with
  | nil => intro m t h; exact Or.inl h
  | cons d rest ih =>
    intro m t h
    rw [List.foldl_cons] at h
    rcases ih _ t h with hm | ⟨d', hd', ht⟩
    · by_cases hd : d.title = ""
      · rw [if_pos hd] at hm; exact Or.inl hm
      · rw [if_neg hd, dictGet_dictSet] at hm
        by_cases hteq : d.title = t
        · exact Or.inr ⟨d, List.mem_cons_self _ _, hteq⟩
        · rw [if_neg hteq] at hm; exact Or.inl hm
    · exact Or.inr ⟨d', List.mem_cons_of_mem _ hd', ht⟩

theorem buildExistingByTitle_isSome {dest : List DestDb} {t : String}
    (h : (dictGet (buildExistingByTitle dest) t).isSome = true) :
    ∃ d ∈ dest, d.title = t := by
  rcases buildExisting_aux_isSome dest [] t h with hm | h2
  · simp [dictGet] at hm
  · exact h2

theorem buildExisting_aux_mem (dest : List DestDb) (t : String) (ht : t ≠ "") :
    ∀ m : Dict String String,
      ((∃ d ∈ dest, d.title = t) ∨ (dictGet m t).isSome = true) →
      (dictGet (dest.foldl
        (fun m d => if d.title = "" then m else dictSet m d.title d.id) m) t).isSome = true := by
  induction dest with
  | nil =>
    intro m h
    rcases h with ⟨d, hd, _⟩ | hm
    · simp at hd
    · exact hm
  | cons d rest ih =>
    intro m h
    rw [List.foldl_cons]
    rcases h with ⟨d', hd', htd⟩ | hm
    · rcases List.mem_cons.mp hd' with rfl | hmem
      · apply ih
        right
        rw [htd, if_neg (htd ▸ ht), dictGet_dictSet, if_pos rfl]
        rfl
      · exact ih _ (Or.inl ⟨d', hmem, htd⟩)
    · apply ih
      right
      by_cases hd : d.title = ""
      · rw [if_pos hd]; exact hm
      · rw [if_neg hd, dictGet_dictSet]
        by_cases hteq : d.title = t
        · rw [if_pos hteq]; rfl
        · rw [if_neg hteq]; exact hm

theorem buildExistingByTitle_mem {dest : List DestDb} {t : String} (ht : t ≠ "")
    (h : ∃ d ∈ dest, d.title = t) :
    (dictGet (buildExistingByTitle dest) t).isSome = true :=
  buildExisting_aux_mem dest t ht [] (Or.inl h)

/-- The two shapes one scheduler step can take. -/
theorem uploadSchemaStep_cases (st : UploadSchemasState) (db : SourceDb) :
    (db.title ≠ "" ∧ ∃ destId, dictGet st.existing db.title = some destId ∧
      uploadSchemaStep st db =
        { st with dbMap := dictSet st.dbMap db.id destId,
                  skipped := st.skipped ++ [db.id] }) ∨
    uploadSchemaStep st db = uploadSchemaCreate st db := by
  unfold uploadSchemaStep
  by_cases h : db.title = ""
  · right; rw [if_pos h]
  · rw [if_neg h]
    cases hq : dictGet st.existing db.title with
    | none => right; rfl
    | some destId => left; exact ⟨h, destId, rfl, rfl⟩

theorem uploadSchemaStep_covered (st : UploadSchemasState) (db : SourceDb)
    (h : ExistingCovered st) : ExistingCovered (uploadSchemaStep st db) := by
  rcases uploadSchemaStep_cases st db with ⟨_, destId, _, heq⟩ | heq <;> rw [heq]
  · intro t ht
    exact h t ht
  · intro t ht
    unfold uploadSchemaCreate at ht ⊢
    dsimp at ht ⊢
    by_cases hdb : db.title = ""
    · rw [if_pos hdb] at ht
      obtain ⟨d, hd, hdt⟩ := h t ht
      exact ⟨d, List.mem_append_left _ hd, hdt⟩
    · rw [if_neg hdb, dictGet_dictSet] at ht
      by_cases hteq : db.title = t
      · refine ⟨⟨freshDestId st.fresh, sanitizeTitlePlain db⟩,
          List.mem_append_right _ (List.mem_singleton.mpr rfl), ?_⟩
        rw [sanitizeTitlePlain, if_neg hdb]
        exact hteq
      · rw [if_neg hteq] at ht
        obtain ⟨d, hd, hdt⟩ := h t ht
        exact ⟨d, List.mem_append_left _ hd, hdt⟩

theorem upload_loop_destState_mono (dbs : List SourceDb) :
    ∀ st : UploadSchemasState,
      ∃ extra, (upload_schemas_loop dbs st).destState = st.destState ++ extra := by
  induction dbs with
  | nil => intro st; exact ⟨[], by simp [upload_schemas_loop]⟩
  | cons db rest ih =>
    intro st
    rw [upload_schemas_loop]
    rcases uploadSchemaStep_cases st db with ⟨_, destId, _, heq⟩ | heq <;> rw [heq]
    · obtain ⟨extra, hx⟩ :=
        ih { st with dbMap := dictSet st.dbMap db.id destId,
                     skipped := st.skipped ++ [db.id] }
      exact ⟨extra, hx⟩
    · obtain ⟨extra, hx⟩ := ih (uploadSchemaCreate st db)
      refine ⟨[⟨freshDestId st.fresh, sanitizeTitlePlain db⟩] ++ extra, ?_⟩
      rw [hx]
      unfold uploadSchemaCreate
      dsimp
      rw [List.append_assoc]
      rfl

theorem upload_loop_covered (dbs : List SourceDb) :
    ∀ st : UploadSchemasState, ExistingCovered st →
      ExistingCovered (upload_schemas_loop dbs st) := by
  induction dbs with
  | nil => intro st h; exact h
  | cons db rest ih =>
    intro st h
    rw [upload_schemas_loop]
    exact ih _ (uploadSchemaStep_covered st db h)

theorem upload_loop_titles_present (dbs : List SourceDb) :
    ∀ st : UploadSchemasState, ExistingCovered st →
      ∀ db ∈ dbs, db.title ≠ "" →
        ∃ d ∈ (upload_schemas_loop dbs st).destState, d.title = db.title := by
  induction dbs with
  | nil => intro st _ db hdb; simp at hdb
  | cons db0 rest ih =>
    intro st hcov db hdb hne
    rw [upload_schemas_loop]
    rcases List.mem_cons.mp hdb with rfl | hmem
    · have hstep : ∃ d ∈ (uploadSchemaStep st db).destState, d.title = db.title := by
        rcases uploadSchemaStep_cases st db with ⟨_, destId, hq, heq⟩ | heq <;> rw [heq]
        · exact hcov db.title (by rw [hq]; rfl)
        · unfold uploadSchemaCreate
          dsimp
          refine ⟨⟨freshDestId st.fresh, sanitizeTitlePlain db⟩,
            List.mem_append_right _ (List.mem_singleton.mpr rfl), ?_⟩
          rw [sanitizeTitlePlain, if_neg hne]
      obtain ⟨d, hd, hdt⟩ := hstep
      obtain ⟨extra, hx⟩ := upload_loop_destState_mono rest (uploadSchemaStep st db)
      exact ⟨d, by rw [hx]; exact List.mem_append_left _ hd, hdt⟩
    · exact ih _ (uploadSchemaStep_covered st db0 hcov) db hmem hne

theorem uploadSchemaStep_dbMap_mono (st : UploadSchemasState) (db : SourceDb)
    (x : String) (h : (dictGet st.dbMap x).isSome = true) :
    (dictGet (uploadSchemaStep st db).dbMap x).isSome = true := by
  rcases uploadSchemaStep_cases st db with ⟨_, destId, _, heq⟩ | heq <;> rw [heq]
  · dsimp
    rw [dictGet_dictSet]
    by_cases hx : db.id = x
    · rw [if_pos hx]; rfl
    · rw [if_neg hx]; exact h
  · unfold uploadSchemaCreate
    dsimp
    rw [dictGet_dictSet]
    by_cases hx : db.id = x
    · rw [if_pos hx]; rfl
    · rw [if_neg hx]; exact h

theorem upload_loop_dbMap_mono (dbs : List SourceDb) :
    ∀ (st : UploadSchemasState) (x : String), (dictGet st.dbMap x).isSome = true →
      (dictGet (upload_schemas_loop dbs st).dbMap x).isSome = true := by
  induction dbs with
  | nil => intro st x h; exact h
  | cons db rest ih =>
    intro st x h
    rw [upload_schemas_loop]
    exact ih _ x (uploadSchemaStep_dbMap_mono st db x h)

theorem upload_loop_all_skip (dbs : List SourceDb) :
    ∀ st : UploadSchemasState,
      (∀ db ∈ dbs, db.title ≠ "" ∧ (dictGet st.existing db.title).isSome = true) →
      (upload_schemas_loop dbs st).destState = st.destState ∧
      (upload_schemas_loop dbs st).createdCount = st.createdCount ∧
      (upload_schemas_loop dbs st).existing = st.existing ∧
      (upload_schemas_loop dbs st).skipped = st.skipped ++ dbs.map (fun db => db.id) ∧
      ∀ db ∈ dbs, (dictGet (upload_schemas_loop dbs st).dbMap db.id).isSome = true := by
  induction dbs with
  | nil =>
    intro st _
    refine ⟨rfl, rfl, rfl, by simp [upload_schemas_loop], ?_⟩
    intro db hdb
    simp at hdb
  | cons db0 rest ih =>
    intro st h
    obtain ⟨hne, hsome⟩ := h db0 (List.mem_cons_self _ _)
    obtain ⟨destId, hq⟩ := Option.isSome_iff_exists.mp hsome
    have hstep : uploadSchemaStep st db0 =
        { st with dbMap := dictSet st.dbMap db0.id destId,
                  skipped := st.skipped ++ [db0.id] } := by
      unfold uploadSchemaStep
      rw [if_neg hne, hq]
    rw [upload_schemas_loop, hstep]
    have hrest : ∀ db ∈ rest, db.title ≠ "" ∧
        (dictGet st.existing db.title).isSome = true :=
      fun db hdb => h db (List.mem_cons_of_mem _ hdb)
    obtain ⟨h1, h2, h3, h4, h5⟩ :=
      ih { st with dbMap := dictSet st.dbMap db0.id destId,
                   skipped := st.skipped ++ [db0.id] } hrest
    refine ⟨h1, h2, h3, ?_, ?_⟩
    · rw [h4]
      dsimp
      rw [List.append_assoc]
      rfl
    · intro db hdb
      rcases List.mem_cons.mp hdb with rfl | hmem
      · apply upload_loop_dbMap_mono
        dsimp
        rw [dictGet_dictSet, if_pos rfl]
        rfl
      · exact h5 db hmem

/-- C1 counterexample. The claim fails for a source schema with an empty
plain title: the skip check requires a truthy title, so an untitled schema
is recreated on every run — the second upload against the same dump creates
one new schema instead of zero and the destination set grows. -/
theorem upload_twice_counterexample :
    (run_upload_schemas [⟨"s1", "", []⟩]
        (run_upload_schemas [⟨"s1", "", []⟩] [] 0).destState
        (run_upload_schemas [⟨"s1", "", []⟩] [] 0).fresh).createdCount = 1 ∧
    (run_upload_schemas [⟨"s1", "", []⟩]
        (run_upload_schemas [⟨"s1", "", []⟩] [] 0).destState
        (run_upload_schemas [⟨"s1", "", []⟩] [] 0).fresh).destState ≠
      (run_upload_schemas [⟨"s1", "", []⟩] [] 0).destState := by
  decide

/-- C1 amended. When every source schema in the dump has a nonempty plain
title, running upload twice against the same dump and destination parent is
idempotent: the second run creates zero schemas, leaves the destination set
of schemas exactly as the first run left it, records every source schema as
skipped in dump order, and still maps every source schema id to a
destination id. -/
theorem upload_twice_idempotent (dbs : List SourceDb) (dest0 : List DestDb)
    (fresh : Nat) (h : ∀ db ∈ dbs, db.title ≠ "") :
    (run_upload_schemas dbs (run_upload_schemas dbs dest0 fresh).destState
        (run_upload_schemas dbs dest0 fresh).fresh).createdCount = 0 ∧
    (run_upload_schemas dbs (run_upload_schemas dbs dest0 fresh).destState
        (run_upload_schemas dbs dest0 fresh).fresh).destState =
      (run_upload_schemas dbs dest0 fresh).destState ∧
    (run_upload_schemas dbs (run_upload_schemas dbs dest0 fresh).destState
        (run_upload_schemas dbs dest0 fresh).fresh).skipped =
      dbs.map (fun db => db.id) ∧
    ∀ db ∈ dbs,
      (dictGet (run_upload_schemas dbs (run_upload_schemas dbs dest0 fresh).destState
          (run_upload_schemas dbs dest0 fresh).fresh).dbMap db.id).isSome = true := by
  have hcov : ExistingCovered
      { existing := buildExistingByTitle dest0, destState := dest0, dbMap := [],
        skipped := [], createdCount := 0, fresh := fresh } := by
    intro t ht
    exact buildExistingByTitle_isSome ht
  have hpresent : ∀ db ∈ dbs, db.title ≠ "" →
      ∃ d ∈ (run_upload_schemas dbs dest0 fresh).destState, d.title = db.title :=
    upload_loop_titles_present dbs _ hcov
  have hskipset : ∀ db ∈ dbs, db.title ≠ "" ∧
      (dictGet (buildExistingByTitle
        (run_upload_schemas dbs dest0 fresh).destState) db.title).isSome = true :=
    fun db hdb =>
      ⟨h db hdb, buildExistingByTitle_mem (h db hdb) (hpresent db hdb (h db hdb))⟩
  obtain ⟨h1, h2, h3, h4, h5⟩ := upload_loop_all_skip dbs
    { existing := buildExistingByTitle (run_upload_schemas dbs dest0 fresh).destState,
      destState := (run_upload_schemas dbs dest0 fresh).destState, dbMap := [],
      skipped := [], createdCount := 0,
      fresh := (run_upload_schemas dbs dest0 fresh).fresh } hskipset
  exact ⟨h2, h1, by simpa using h4, h5⟩

/-- Closed instance discharging the hypothesis of the amended C1 theorem. -/
theorem upload_twice_idempotent_witness :
    (∀ db ∈ ([⟨"s1", "Tasks", []⟩] : List SourceDb), db.title ≠ "") ∧
    ((run_upload_schemas [⟨"s1", "Tasks", []⟩]
        (run_upload_schemas [⟨"s1", "Tasks", []⟩] [] 0).destState
        (run_upload_schemas [⟨"s1", "Tasks", []⟩] [] 0).fresh).createdCount = 0 ∧
      (run_upload_schemas [⟨"s1", "Tasks", []⟩]
          (run_upload_schemas [⟨"s1", "Tasks", []⟩] [] 0).destState
          (run_upload_schemas [⟨"s1", "Tasks", []⟩] [] 0).fresh).destState =
        (run_upload_schemas [⟨"s1", "Tasks", []⟩] [] 0).destState ∧
      (run_upload_schemas [⟨"s1", "Tasks", []⟩]
          (run_upload_schemas [⟨"s1", "Tasks", []⟩] [] 0).destState
          (run_upload_schemas [⟨"s1", "Tasks", []⟩] [] 0).fresh).skipped =
        ([⟨"s1", "Tasks", []⟩] : List SourceDb).map (fun db => db.id) ∧
      ∀ db ∈ ([⟨"s1", "Tasks", []⟩] : List SourceDb),
        (dictGet (run_upload_schemas [⟨"s1", "Tasks", []⟩]
            (run_upload_schemas [⟨"s1", "Tasks", []⟩] [] 0).destState
            (run_upload_schemas [⟨"s1", "Tasks", []⟩] [] 0).fresh).dbMap
          db.id).isSome = true) :=
  ⟨by decide, upload_twice_idempotent [⟨"s1", "Tasks", []⟩] [] 0 (by decide)⟩

/-! ## C6: partial-failure isolation in the record migrator -/

theorem migrate_loop_pageMap_mono (outcome : Nat → Option String) (pages : List SrcPage) :
    ∀ (i : Nat) (st : MigrationState) (x : String × String), x ∈ st.pageMap →
      x ∈ (migrate_pages_loop outcome i pages st).pageMap := by
  induction pages with
  | nil => intro i st x h; exact h
  | cons p rest ih =>
    intro i st x hx
    rw [migrate_pages_loop]
    cases ho : outcome i with
    | none => exact ih (i + 1) _ x hx
    | some destId =>
      dsimp only
      by_cases hc : p.id ≠ "" ∧ destId ≠ ""
      · rw [if_pos hc]
        exact ih (i + 1) _ x (List.mem_cons_of_mem _ hx)
      · rw [if_neg hc]
        exact ih (i + 1) _ x hx

theorem migrate_loop_creates (outcome : Nat → Option String) (pages : List SrcPage) :
    ∀ (i : Nat) (st : MigrationState) (j : Nat) (p : SrcPage) (destId : String),
      pages[j]? = some p → outcome (i + j) = some destId → p.id ≠ "" → destId ≠ "" →
      (p.id, destId) ∈ (migrate_pages_loop outcome i pages st).pageMap := by
  induction pages with
  | nil => intro i st j p d hj; simp at hj
  | cons p0 rest ih =>
    intro i st j p d hj ho hp hd
    rw [migrate_pages_loop]
    cases j with
    | zero =>
      obtain rfl : p0 = p := by simpa using hj
      rw [Nat.add_zero] at ho
      rw [ho]
      dsimp only
      rw [if_pos ⟨hp, hd⟩]
      exact migrate_loop_pageMap_mono outcome rest (i + 1) _ _
        (List.mem_cons_self _ _)
    | succ j' =>
      have hj' : rest[j']? = some p := by simpa using hj
      have ho' : outcome ((i + 1) + j') = some d := by
        rw [show (i + 1) + j' = i + (j' + 1) by omega]
        exact ho
      cases ho0 : outcome i with
      | none => exact ih (i + 1) _ j' p d hj' ho' hp hd
      | some d0 =>
        dsimp only
        by_cases hc : p0.id ≠ "" ∧ d0 ≠ ""
        · rw [if_pos hc]
          exact ih (i + 1) _ j' p d hj' ho' hp hd
        · rw [if_neg hc]
          exact ih (i + 1) _ j' p d hj' ho' hp hd

theorem migrate_loop_pageMap_sound (outcome : Nat → Option String) (pages : List SrcPage) :
    ∀ (i : Nat) (st : MigrationState) (pr : String × String),
      pr ∈ (migrate_pages_loop outcome i pages st).pageMap →
      pr ∈ st.pageMap ∨ ∃ j p, pages[j]? = some p ∧ outcome (i + j) = some pr.2 ∧
        p.id = pr.1 ∧ pr.1 ≠ "" ∧ pr.2 ≠ "" := by
  induction pages with
  | nil => intro i st pr h; exact Or.inl h
  | cons p0 rest ih =>
    intro i st pr h
    rw [migrate_pages_loop] at h
    cases ho : outcome i with
    | none =>
      rw [ho] at h
      rcases ih (i + 1) _ pr h with hm | ⟨j, p, hj, hoj, hpid, h1, h2⟩
      · exact Or.inl hm
      · refine Or.inr ⟨j + 1, p, by simpa using hj, ?_, hpid, h1, h2⟩
        rw [show i + (j + 1) = (i + 1) + j by omega]
        exact hoj
    | some d0 =>
      rw [ho] at h
      dsimp only at h
      by_cases hc : p0.id ≠ "" ∧ d0 ≠ ""
      · rw [if_pos hc] at h
        rcases ih (i + 1) _ pr h with hm | ⟨j, p, hj, hoj, hpid, h1, h2⟩
        · rcases List.mem_cons.mp hm with rfl | hmem
          · exact Or.inr ⟨0, p0, by simp, by rw [Nat.add_zero]; exact ho, rfl,
              hc.1, hc.2⟩
          · exact Or.inl hmem
        · refine Or.inr ⟨j + 1, p, by simpa using hj, ?_, hpid, h1, h2⟩
          rw [show i + (j + 1) = (i + 1) + j by omega]
          exact hoj
      · rw [if_neg hc] at h
        rcases ih (i + 1) _ pr h with hm | ⟨j, p, hj, hoj, hpid, h1, h2⟩
        · exact Or.inl hm
        · refine Or.inr ⟨j + 1, p, by simpa using hj, ?_, hpid, h1, h2⟩
          rw [show i + (j + 1) = (i + 1) + j by omega]
          exact hoj

theorem range_succ_filter_length (q : Nat → Bool) (n : Nat) :
    ((List.range (n + 1)).filter q).length =
      (if q 0 = true then 1 else 0) +
        ((List.range n).filter (fun j => q (j + 1))).length := by
  rw [List.range_succ_eq_map, List.filter_cons]
  have hmap : ((List.range n).map Nat.succ).filter q =
      ((List.range n).filter (fun j => q (j + 1))).map Nat.succ := by
    rw [List.filter_map]
    rfl
  by_cases h0 : q 0 = true
  · rw [if_pos h0, if_pos h0, List.length_cons, hmap, List.length_map]
    omega
  · rw [if_neg h0, if_neg h0, hmap, List.length_map]
    omega

theorem migrate_loop_failedCount (outcome : Nat → Option String) (pages : List SrcPage) :
    ∀ (i : Nat) (st : MigrationState),
      (migrate_pages_loop outcome i pages st).failedCount =
        st.failedCount +
          ((List.range pages.length).filter (fun j => (outcome (i + j)).isNone)).length := by
  induction pages with
  | nil => intro i st; simp [migrate_pages_loop]
  | cons p0 rest ih =>
    intro i st
    rw [migrate_pages_loop]
    have hcg : (List.range rest.length).filter (fun j => (outcome (i + (j + 1))).isNone) =
        (List.range rest.length).filter (fun j => (outcome ((i + 1) + j)).isNone) := by
      apply List.filter_congr
      intro j _
      rw [show i + (j + 1) = (i + 1) + j by omega]
    cases ho : outcome i with
    | none =>
      rw [ih (i + 1)]
      dsimp only
      rw [List.length_cons, range_succ_filter_length]
      simp only [Nat.add_zero, ho, Option.isNone_none, hcg]
      simp
      omega
    | some d0 =>
      dsimp only
      rw [List.length_cons, range_succ_filter_length]
      simp only [Nat.add_zero, ho, Option.isNone_some]
      simp only [hcg]
      by_cases hc : p0.id ≠ "" ∧ d0 ≠ ""
      · rw [if_pos hc, ih (i + 1)]
        simp
      · rw [if_neg hc, ih (i + 1)]
        simp

theorem remap_ref_resolves {pageMap : Dict String String} {refs : List String}
    {rid : String}
    (h : rid ∈ refs.filterMap (fun r =>
      if r = "" then none
      else
        match dictGet pageMap r with
        | none => none
        | some destId => if destId = "" then none else some destId)) :
    ∃ src, dictGet pageMap src = some rid := by
  rw [List.mem_filterMap] at h
  obtain ⟨r, _, hf⟩ := h
  by_cases hr : r = ""
  · rw [if_pos hr] at hf
    exact absurd hf (by simp)
  · rw [if_neg hr] at hf
    cases hq : dictGet pageMap r with
    | none =>
      rw [hq] at hf
      exact absurd hf (by simp)
    | some destId =>
      rw [hq] at hf
      dsimp only at hf
      by_cases hd : destId = ""
      · rw [if_pos hd] at hf
        exact absurd hf (by simp)
      · rw [if_neg hd] at hf
        obtain rfl : destId = rid := by simpa using hf
        exact ⟨r, hq⟩

theorem issued_relation_updates_mem {deferred : List (String × List (String × List String))}
    {pageMap : Dict String String} {u : String × List (String × List String)}
    (h : u ∈ issued_relation_updates deferred pageMap) :
    ∃ du ∈ deferred, u.1 = du.1 ∧ u.2 = remap_relation_update du.2 pageMap := by
  rw [issued_relation_updates, List.mem_filterMap] at h
  obtain ⟨du, hdu, hf⟩ := h
  by_cases he : (remap_relation_update du.2 pageMap).isEmpty = true
  · rw [if_pos he] at hf
    exact absurd hf (by simp)
  · rw [if_neg he] at hf
    obtain rfl : (du.1, remap_relation_update du.2 pageMap) = u := by simpa using hf
    exact ⟨du, hdu, rfl, rfl⟩

/-- C6. Partial-failure isolation of the record migrator: a failed create
does not block any other record — every record whose create succeeds (with
truthy ids) has its source-to-destination correspondence recorded, everything
recorded comes from such a success, and the number of warned records equals
the number of failed creates; in the second pass every reference carried by
an issued relation update resolves through the correspondence table, every
issued update is the remap of one deferred update (unresolved references
dropped by the remap), and every deferred update with a nonempty remap is
issued. Finally, a concrete run of four records in which the third create
fails shows records 1, 2 and 4 still created, one warning, and the relation
update of record 1 dropping its reference to the failed record 3 while
keeping its resolved reference to record 4. -/
theorem record_migration_isolation (pages : List SrcPage) (outcome : Nat → Option String) :
    (∀ (j : Nat) (p : SrcPage) (destId : String),
      pages[j]? = some p → outcome j = some destId → p.id ≠ "" → destId ≠ "" →
      (p.id, destId) ∈ (migrate_records pages outcome).1.pageMap) ∧
    (∀ pr ∈ (migrate_records pages outcome).1.pageMap,
      ∃ j p, pages[j]? = some p ∧ outcome j = some pr.2 ∧ p.id = pr.1 ∧
        pr.1 ≠ "" ∧ pr.2 ≠ "") ∧
    (migrate_records pages outcome).1.failedCount =
      ((List.range pages.length).filter (fun j => (outcome j).isNone)).length ∧
    (∀ u ∈ (migrate_records pages outcome).2, ∀ nr ∈ u.2, ∀ rid ∈ nr.2,
      ∃ src, dictGet (migrate_records pages outcome).1.pageMap src = some rid) ∧
    (∀ u ∈ (migrate_records pages outcome).2,
      ∃ du ∈ (migrate_records pages outcome).1.deferredRelations,
        u.1 = du.1 ∧
        u.2 = remap_relation_update du.2 (migrate_records pages outcome).1.pageMap) ∧
    (∀ du ∈ (migrate_records pages outcome).1.deferredRelations,
      (remap_relation_update du.2 (migrate_records pages outcome).1.pageMap).isEmpty
          = false →
      (du.1, remap_relation_update du.2 (migrate_records pages outcome).1.pageMap) ∈
        (migrate_records pages outcome).2) ∧
    ((migrate_records
        [⟨"p1", [("Rel", .relationValue ["p3", "p4"])]⟩, ⟨"p2", []⟩,
          ⟨"p3", []⟩, ⟨"p4", []⟩]
        (fun i => if i = 2 then none else some ("d" ++ toString i))).1.failedCount = 1 ∧
      dictGet (migrate_records
        [⟨"p1", [("Rel", .relationValue ["p3", "p4"])]⟩, ⟨"p2", []⟩,
          ⟨"p3", []⟩, ⟨"p4", []⟩]
        (fun i => if i = 2 then none else some ("d" ++ toString i))).1.pageMap "p3"
          = none ∧
      dictGet (migrate_records
        [⟨"p1", [("Rel", .relationValue ["p3", "p4"])]⟩, ⟨"p2", []⟩,
          ⟨"p3", []⟩, ⟨"p4", []⟩]
        (fun i => if i = 2 then none else some ("d" ++ toString i))).1.pageMap "p4"
          = some "d3" ∧
      (migrate_records
        [⟨"p1", [("Rel", .relationValue ["p3", "p4"])]⟩, ⟨"p2", []⟩,
          ⟨"p3", []⟩, ⟨"p4", []⟩]
        (fun i => if i = 2 then none else some ("d" ++ toString i))).2 =
        [("d0", [("Rel", ["d3"])])]) := by
  refine ⟨?_, ?_, ?_, ?_, ?_, ?_, by decide⟩
  · intro j p destId hj ho hp hd
    exact migrate_loop_creates outcome pages 0 _ j p destId hj
      (by rw [Nat.zero_add]; exact ho) hp hd
  · intro pr hpr
    rcases migrate_loop_pageMap_sound outcome pages 0 _ pr hpr with hm | ⟨j, p, hj, ho, h1, h2, h3⟩
    · simp at hm
    · exact ⟨j, p, hj, by rw [Nat.zero_add] at ho; exact ho, h1, h2, h3⟩
  · rw [show (migrate_records pages outcome).1 =
      migrate_pages_loop outcome 0 pages ⟨[], [], 0⟩ from rfl]
    rw [migrate_loop_failedCount]
    have : (List.range pages.length).filter (fun j => (outcome (0 + j)).isNone) =
        (List.range pages.length).filter (fun j => (outcome j).isNone) := by
      apply List.filter_congr
      intro j _
      rw [Nat.zero_add]
    rw [this]
    simp
  · intro u hu nr hnr rid hrid
    obtain ⟨du, _, _, hu2⟩ := issued_relation_updates_mem hu
    rw [hu2, remap_relation_update, List.mem_map] at hnr
    obtain ⟨pr0, _, hpr0⟩ := hnr
    rw [← hpr0] at hrid
    exact remap_ref_resolves hrid
  · intro u hu
    exact issued_relation_updates_mem hu
  · intro du hdu hne
    rw [show (migrate_records pages outcome).2 =
      issued_relation_updates (migrate_records pages outcome).1.deferredRelations
        (migrate_records pages outcome).1.pageMap from rfl]
    rw [issued_relation_updates, List.mem_filterMap]
    refine ⟨du, hdu, ?_⟩
    rw [if_neg (by rw [hne]; simp)]

/-! ## C4: formula reference rewriting -/

/-- Modelled from the spec: a token's property id resolves in the owning
schema's property-id-to-name table when the database id is the all-zero
sentinel, else in the referenced schema's table, matching the raw id first
and then its URL-decoded form; the resolved value is the property's name. -/
def specResolveToken (own : Dict String String) (allDb : Dict String (Dict String String))
    (p d : String) : Option String :=
  if removeHyphens d = zeros32 then
    match dictGet own p with
    | some name => some name
    | none => dictGet own (unquote p)
  else
    match dictGet allDb (removeHyphens d) with
    | none => none
    | some dbMap =>
      match dictGet dbMap p with
      | some name => some name
      | none => dictGet dbMap (unquote p)

theorem replaceUuid_eq_spec (own : Dict String String)
    (allDb : Dict String (Dict String String)) (p d r : String) :
    replaceUuid own allDb p d r =
      match specResolveToken own allDb p d with
      | some name => propCall name
      | none => tokenText p d r := by
  rw [replaceUuid, specResolveToken]
  by_cases hz : removeHyphens d = zeros32
  · rw [if_pos hz, if_pos hz]
    cases dictGet own p with
    | some name => rfl
    | none => rfl
  · rw [if_neg hz, if_neg hz]
    cases dictGet allDb (removeHyphens d) with
    | none => rfl
    | some dbMap =>
      dsimp only
      cases dictGet dbMap p with
      | some name => rfl
      | none => rfl

theorem tokenText_data (p d r : String) :
    (tokenText p d r).data =
      tokenStartChars ++ (p.data ++ ':' :: (d.data ++ ':' ::
        (r.data ++ [rbraceChar, rbraceChar]))) := by
  simp [tokenText]

theorem dropLiteral_complete (lit : List Char) :
    ∀ cs : List Char, dropLiteral lit (lit ++ cs) = some cs := by
  induction lit with
  | nil => intro cs; rfl
  | cons p ps ih => intro cs; simp [dropLiteral, ih]

theorem takeWhile_append_of_all {q : Char → Bool} :
    ∀ (p : List Char) (x : Char) (rest : List Char),
      (∀ c ∈ p, q c = true) → q x = false →
      (p ++ x :: rest).takeWhile q = p ∧ (p ++ x :: rest).dropWhile q = x :: rest := by
  intro p
  induction p with
  | nil =>
    intro x rest _ hx
    constructor <;> simp [List.takeWhile_cons, List.dropWhile_cons, hx]
  | cons a p ih =>
    intro x rest hall hx
    have ha : q a = true := hall a (List.mem_cons_self _ _)
    obtain ⟨ht, hd⟩ := ih x rest (fun c hc => hall c (List.mem_cons_of_mem _ hc)) hx
    constructor <;> simp [List.takeWhile_cons, List.dropWhile_cons, ha, ht, hd]

theorem splitOnColon_complete (p rest : List Char)
    (hall : ∀ c ∈ p, c ≠ ':') (hne : p ≠ []) :
    splitOnColon (p ++ ':' :: rest) = some (p, rest) := by
  obtain ⟨ht, hd⟩ := takeWhile_append_of_all (q := fun c => decide (c ≠ ':')) p ':' rest
    (fun c hc => decide_eq_true (hall c hc)) (by simp)
  rw [splitOnColon]
  rw [hd, ht]
  dsimp only
  rw [if_pos rfl]
  rw [if_neg (by simpa [List.isEmpty_iff] using hne)]

theorem splitBody_complete (r rest : List Char)
    (hall : ∀ c ∈ r, c ≠ rbraceChar) (hne : r ≠ []) :
    splitBody (r ++ rbraceChar :: rbraceChar :: rest) = some (r, rest) := by
  obtain ⟨ht, hd⟩ := takeWhile_append_of_all (q := fun c => decide (c ≠ rbraceChar))
    r rbraceChar (rbraceChar :: rest)
    (fun c hc => decide_eq_true (hall c hc)) (by simp)
  rw [splitBody]
  rw [hd, ht]
  dsimp only
  rw [if_neg (by simpa [List.isEmpty_iff] using hne)]
  rw [if_pos (by simp)]

theorem tryMatchToken_complete (p d r : String) (rest : List Char)
    (hp : p.data ≠ []) (hpc : ∀ c ∈ p.data, c ≠ ':')
    (hd : d.data ≠ []) (hdc : ∀ c ∈ d.data, c ≠ ':')
    (hr : r.data ≠ []) (hrc : ∀ c ∈ r.data, c ≠ rbraceChar) :
    tryMatchToken ((tokenText p d r).data ++ rest) = some (p, d, r, rest) := by
  rw [tokenText_data]
  have hsplit : (tokenStartChars ++ (p.data ++ ':' :: (d.data ++ ':' ::
      (r.data ++ [rbraceChar, rbraceChar])))) ++ rest =
      tokenStartChars ++ (p.data ++ ':' :: (d.data ++ ':' ::
        (r.data ++ rbraceChar :: rbraceChar :: rest))) := by
    simp
  rw [hsplit, tryMatchToken, dropLiteral_complete]
  dsimp only
  rw [splitOnColon_complete _ _ hpc hp]
  dsimp only
  rw [splitOnColon_complete _ _ hdc hd]
  dsimp only
  rw [splitBody_complete _ _ hrc hr]

theorem convertChars_nil (own : Dict String String)
    (allDb : Dict String (Dict String String)) : convertChars own allDb [] = [] := by
  rw [convertChars]

theorem convertChars_cons_of_match {own : Dict String String}
    {allDb : Dict String (Dict String String)} {c : Char} {cs : List Char}
    {p d r : String} {rem : List Char}
    (h : tryMatchToken (c :: cs) = some (p, d, r, rem)) :
    convertChars own allDb (c :: cs) =
      (replaceUuid own allDb p d r).data ++ convertChars own allDb rem := by
  rw [convertChars]
  split
  next p2 d2 r2 rem2 heq =>
    rw [h] at heq
    obtain ⟨rfl, rfl, rfl, rfl⟩ : p = p2 ∧ d = d2 ∧ r = r2 ∧ rem = rem2 := by
      simpa using heq
    rfl
  next heq =>
    rw [h] at heq
    exact absurd heq (by simp)

theorem convertChars_cons_of_none {own : Dict String String}
    {allDb : Dict String (Dict String String)} {c : Char} {cs : List Char}
    (h : tryMatchToken (c :: cs) = none) :
    convertChars own allDb (c :: cs) = c :: convertChars own allDb cs := by
  rw [convertChars]
  split
  next p2 d2 r2 rem2 heq =>
    rw [h] at heq
    exact absurd heq (by simp)
  next => rfl

theorem convertChars_eq_of_match {own : Dict String String}
    {allDb : Dict String (Dict String String)} {l : List Char}
    {p d r : String} {rem : List Char} (hl : l ≠ [])
    (h : tryMatchToken l = some (p, d, r, rem)) :
    convertChars own allDb l =
      (replaceUuid own allDb p d r).data ++ convertChars own allDb rem := by
  cases l with
  | nil => exact absurd rfl hl
  | cons c cs => exact convertChars_cons_of_match h

theorem convertChars_append_token (own : Dict String String)
    (allDb : Dict String (Dict String String)) (p d r : String) :
    ∀ pre rest : List Char,
      p.data ≠ [] → (∀ c ∈ p.data, c ≠ ':') →
      d.data ≠ [] → (∀ c ∈ d.data, c ≠ ':') →
      r.data ≠ [] → (∀ c ∈ r.data, c ≠ rbraceChar) →
      (∀ i, i < pre.length →
        tryMatchToken (List.drop i (pre ++ (tokenText p d r).data ++ rest)) = none) →
      convertChars own allDb (pre ++ (tokenText p d r).data ++ rest) =
        pre ++ (replaceUuid own allDb p d r).data ++ convertChars own allDb rest := by
  intro pre
  induction pre with
  | nil =>
    intro rest hp hpc hd hdc hr hrc _
    simp only [List.nil_append]
    have hm := tryMatchToken_complete p d r rest hp hpc hd hdc hr hrc
    have hne : (tokenText p d r).data ++ rest ≠ [] := by
      rw [tokenText_data]
      simp [tokenStartChars]
    rw [convertChars_eq_of_match hne hm]
  | cons c pre ih =>
    intro rest hp hpc hd hdc hr hrc hpre
    have h0 := hpre 0 (by simp)
    rw [List.drop_zero] at h0
    have hcons : (c :: pre) ++ (tokenText p d r).data ++ rest =
        c :: (pre ++ (tokenText p d r).data ++ rest) := by simp
    rw [hcons] at h0 ⊢
    rw [convertChars_cons_of_none h0]
    rw [ih rest hp hpc hd hdc hr hrc (fun i hi => by
      have := hpre (i + 1) (by simpa using Nat.succ_lt_succ hi)
      rw [hcons, List.drop_succ_cons] at this
      exact this)]
    simp

theorem convertChars_of_no_match (own : Dict String String)
    (allDb : Dict String (Dict String String)) :
    ∀ l : List Char, (∀ i, tryMatchToken (List.drop i l) = none) →
      convertChars own allDb l = l := by
  intro l
  induction l with
  | nil => intro _; exact convertChars_nil own allDb
  | cons c cs ih =>
    intro h
    have h0 := h 0
    rw [List.drop_zero] at h0
    rw [convertChars_cons_of_none h0]
    rw [ih (fun i => by
      have := h (i + 1)
      rw [List.drop_succ_cons] at this
      exact this)]

/-- C4. Formula reference rewriting: structurally, whenever a well-formed
token follows a stretch of text in which the pattern matches at no position,
the scan reproduces that text verbatim and replaces the token by the
name-based call prop("name") (quotes escaped inside propCall) exactly when
its property id — raw or URL-decoded — resolves per the spec-side lookup
(owning table for the all-zero sentinel, referenced schema's table
otherwise), leaving the token byte-for-byte unchanged otherwise, and an
expression with no token anywhere is returned unchanged; concretely, the
spec's example token with property id AbCd and the all-zero database id
rewrites to prop("Status") under the table AbCd to Status, and the same
token with an unknown property id is left untouched. -/
theorem formula_rewrite_correct :
    (∀ (own : Dict String String) (allDb : Dict String (Dict String String))
        (p d r : String) (pre rest : List Char),
      p.data ≠ [] → (∀ c ∈ p.data, c ≠ ':') →
      d.data ≠ [] → (∀ c ∈ d.data, c ≠ ':') →
      r.data ≠ [] → (∀ c ∈ r.data, c ≠ rbraceChar) →
      (∀ i, i < pre.length →
        tryMatchToken (List.drop i (pre ++ (tokenText p d r).data ++ rest)) = none) →
      convertChars own allDb (pre ++ (tokenText p d r).data ++ rest) =
        pre ++ (match specResolveToken own allDb p d with
          | some name => (propCall name).data
          | none => (tokenText p d r).data) ++ convertChars own allDb rest) ∧
    (∀ (own : Dict String String) (allDb : Dict String (Dict String String))
        (l : List Char),
      (∀ i, tryMatchToken (List.drop i l) = none) → convertChars own allDb l = l) ∧
    convert_formula_uuids_to_prop
      (tokenText "AbCd" "00000000-0000-0000-0000-000000000000" "pageid")
      [("Status", "AbCd")] [] = "prop(\"Status\")" ∧
    convert_formula_uuids_to_prop
      (tokenText "ZZZZ" "00000000-0000-0000-0000-000000000000" "pageid")
      [("Status", "AbCd")] [] =
      tokenText "ZZZZ" "00000000-0000-0000-0000-000000000000" "pageid" := by
  refine ⟨?_, convertChars_of_no_match, ?_, ?_⟩
  · intro own allDb p d r pre rest hp hpc hd hdc hr hrc hpre
    rw [convertChars_append_token own allDb p d r pre rest hp hpc hd hdc hr hrc hpre]
    have hdata : (replaceUuid own allDb p d r).data =
        (match specResolveToken own allDb p d with
          | some name => (propCall name).data
          | none => (tokenText p d r).data) := by
      rw [replaceUuid_eq_spec]
      cases specResolveToken own allDb p d <;> rfl
    rw [hdata]
  · rw [convert_formula_uuids_to_prop]
    rw [convertChars_eq_of_match (by decide)
      (by decide : tryMatchToken
        ((tokenText "AbCd" "00000000-0000-0000-0000-000000000000" "pageid").data) =
        some ("AbCd", "00000000-0000-0000-0000-000000000000", "pageid", []))]
    rw [convertChars_nil]
    decide
  · rw [convert_formula_uuids_to_prop]
    rw [convertChars_eq_of_match (by decide)
      (by decide : tryMatchToken
        ((tokenText "ZZZZ" "00000000-0000-0000-0000-000000000000" "pageid").data) =
        some ("ZZZZ", "00000000-0000-0000-0000-000000000000", "pageid", []))]
    rw [convertChars_nil]
    decide

end NotionDbDuplicate
